import Mathlib

/-!
Verification development for the cligent session engine.

This file gives a shallow embedding, in Lean 4, of the parts of the
TypeScript sources that the checked properties speak about:

* the canonical event model (src/types.ts),
* the single-session driver runAgent and the parallel driver runParallel
  (src/types.ts, second half of the concatenated module),
* the NDJSON line framer (src/adapters/ndjson.ts),
* the Codex permission mapping (mapPermissionsToCodexOptions),
* the Gemini child-process adapter event loop (src/adapters/gemini.ts).

Modelling conventions, used uniformly below:

* JavaScript strings are Lean String values; where the framer slices a
  buffer by index the buffer is modelled as List Char (a String is its
  list of characters).
* JavaScript numbers are modelled as Int.  No checked property depends on
  floating point behaviour.
* Date.now() is modelled by an explicit clock argument.  The clock is
  constant inside one synchronous segment of a generator (between two
  suspension points) and may advance at each suspension point; theorems
  that do not mention time quantify over the clock arguments.
* generateSessionId() is modelled by explicit identifier arguments; the
  checked properties never depend on uniqueness of the generated ids.
* An async generator supplied by an adapter is modelled by its observable
  behaviour: a finite list of yielded events followed by either a normal
  return of the generator or a raised exception.  Abort signals are
  modelled by a Boolean that says whether the token had tripped; the
  checked properties only concern tokens that are already tripped at call
  time or never trip.
-/

/-- JSON-like runtime values (the result of JSON.parse and the payloads the
adapters inspect structurally).  Numbers are modelled as integers. -/
inductive Json where
  | null : Json
  | bool (b : Bool) : Json
  | num (n : Int) : Json
  | str (s : String) : Json
  | arr (items : List Json) : Json
  | obj (fields : List (String × Json)) : Json

/-- Terminal status of a done event (DonePayload status in src/types.ts). -/
inductive DoneStatus where
  | success | error | interrupted | maxTurns | maxBudget
deriving DecidableEq, Repr

/-- Status of a tool result (ToolResultPayload status in src/types.ts). -/
inductive ToolResultStatus where
  | success | error | denied
deriving DecidableEq, Repr

/-- Usage block of a done payload (src/types.ts DonePayload usage). -/
structure Usage where
  inputTokens : Int
  outputTokens : Int
  toolUses : Int
  totalCostUsd : Option Int := none
deriving Repr

/-- Event payloads, one constructor per canonical event type of
src/types.ts, plus a generic constructor for namespaced extension events
and free-form payloads. -/
inductive Payload where
  | init (model : String) (cwd : String) (tools : List String)
      (capabilities : Option Json) : Payload
  | text (content : String) : Payload
  | textDelta (delta : String) : Payload
  | thinking (summary : String) : Payload
  | toolUse (toolName : String) (toolUseId : String) (input : Json)
      (description : Option String) : Payload
  | toolResult (toolUseId : String) (toolName : String)
      (status : ToolResultStatus) (output : Json)
      (durationMs : Option Int) : Payload
  | permissionRequest (toolName : String) (toolUseId : String)
      (input : Json) (reason : Option String) : Payload
  | error (code : Option String) (message : String)
      (recoverable : Bool) : Payload
  | done (status : DoneStatus) (result : Option String) (usage : Usage)
      (durationMs : Int) : Payload
  | ext (payload : Json) : Payload

/-- A canonical event (BaseEvent plus payload, src/types.ts).  The type
tag is kept as a string, exactly as the drivers inspect it. -/
structure AgentEvent where
  type : String
  agent : String
  timestamp : Int
  sessionId : String
  payload : Payload

/-- Zeroed usage block used by the synthesized terminals. -/
def zeroUsage : Usage := { inputTokens := 0, outputTokens := 0, toolUses := 0 }

/-- makeSynthDone of the engine: a synthesized done event with zeroed
usage and durationMs measured from startTime to the current clock. -/
def makeSynthDone (agent : String) (status : DoneStatus) (sessionId : String)
    (startTime now : Int) : AgentEvent :=
  { type := "done"
    agent := agent
    timestamp := now
    sessionId := sessionId
    payload := .done status none zeroUsage (now - startTime) }

/-- makeSynthError of the engine: a synthesized non-recoverable error
event. -/
def makeSynthError (agent : String) (code : String) (message : String)
    (sessionId : String) (now : Int) : AgentEvent :=
  { type := "error"
    agent := agent
    timestamp := now
    sessionId := sessionId
    payload := .error (some code) message false }

/-- How an adapter generator finishes once its yielded events are
exhausted: a clean return of the generator, or a raised exception whose
text is the given message. -/
inductive AdapterEnd where
  | exhaust : AdapterEnd
  | throwErr (message : String) : AdapterEnd

/-- Observable behaviour of one adapter generator: the events it yields in
order, then how it finishes.  (If an event of type done occurs in the
list, the driver stops pulling there and the tail plus the ending are
never observed.) -/
structure AdapterBehavior where
  events : List AgentEvent
  ending : AdapterEnd

/-- The MISSING_DONE message emitted by both drivers (src/types.ts). -/
def missingDoneMessage : String :=
  "Protocol violation: adapter completed without terminal event"

/-- The per-event pull loop of runAgent (src/types.ts lines 239 to 292),
with lastSessionId threaded exactly as in the source: it is updated from
each event before the event is yielded, and the synthesized terminals
carry its current value.  startTime and endTime are the clock values at
the start of the run and at the suspension point where the stream ends. -/
def runLoop (agent : String) (ending : AdapterEnd) (lastSessionId : String)
    (startTime endTime : Int) : List AgentEvent → List AgentEvent
  | [] =>
    match ending with
    | .exhaust =>
        [makeSynthError agent "MISSING_DONE" missingDoneMessage lastSessionId endTime,
         makeSynthDone agent .error lastSessionId startTime endTime]
    | .throwErr message =>
        [makeSynthError agent "ADAPTER_ERROR" message lastSessionId endTime,
         makeSynthDone agent .error lastSessionId startTime endTime]
  | e :: rest =>
    if e.type = "done" then [e]
    else e :: runLoop agent ending e.sessionId startTime endTime rest

/-- The single-session driver runAgent (src/types.ts).  aborted says
whether the cancellation token had already tripped when the driver was
invoked (in which case the adapter is not consulted at all: the result
does not depend on the behaviour argument).  sessionId0 is the
driver-generated provisional session id, startTime the clock at
invocation, endTime the clock at the suspension point where the adapter
stream ends. -/
def runAgent (agent : String) (aborted : Bool) (sessionId0 : String)
    (startTime endTime : Int) (behavior : AdapterBehavior) : List AgentEvent :=
  if aborted then
    [makeSynthDone agent .interrupted sessionId0 startTime startTime]
  else
    runLoop agent behavior.ending sessionId0 startTime endTime behavior.events

/-- The pull loop of runAgent when the cancellation token trips during
production (src/types.ts lines 254 to 261): the counter says during which
pull the trip is observed (the race of src/types.ts line 242 resolves
against the token at that pull).  Events delivered before that pull are
yielded unchanged, updating lastSessionId as in runLoop; an adapter done
observed before the trip still wins and ends the stream; when the trip is
observed the driver yields one synthesized done interrupted carrying the
current lastSessionId (an event the race may have delivered at that same
pull is not yielded, exactly as the source checks the token before
yielding).  If the generator ends before the trip is observed, the run is
the ordinary runLoop ending.  abortTime is the clock when the trip is
observed. -/
def runLoopAbortAt (agent : String) (ending : AdapterEnd) (lastSessionId : String)
    (startTime endTime abortTime : Int) :
    Nat → List AgentEvent → List AgentEvent
  | 0, _ =>
    [makeSynthDone agent .interrupted lastSessionId startTime abortTime]
  | _ + 1, [] => runLoop agent ending lastSessionId startTime endTime []
  | k + 1, e :: rest =>
    if e.type = "done" then [e]
    else e :: runLoopAbortAt agent ending e.sessionId startTime endTime abortTime k rest

/-- runAgent for a run whose cancellation token trips during production,
observed at the pull with the given index (src/types.ts lines 254 to
261); the pre-abort short circuit of runAgent covers the token already
tripped at call time, this definition covers every later trip. -/
def runAgentAbortDuring (agent : String) (sessionId0 : String)
    (startTime endTime abortTime : Int) (behavior : AdapterBehavior)
    (k : Nat) : List AgentEvent :=
  runLoopAbortAt agent behavior.ending sessionId0 startTime endTime abortTime
    k behavior.events

/-- Number of done-typed events in a stream. -/
def countDone (events : List AgentEvent) : Nat :=
  (events.filter (fun e => e.type = "done")).length

/-- Session id of the last adapter-yielded event, or the provisional id
when the adapter yielded none. -/
def lastSid (sessionId0 : String) (events : List AgentEvent) : String :=
  ((events.getLast?).map AgentEvent.sessionId).getD sessionId0


/-- Message carried by an error payload, when the event is an error. -/
def errMsg? (e : AgentEvent) : Option String :=
  match e.payload with
  | .error _ m _ => some m
  | _ => none

/-- A sample adapter-produced done event used by concrete instantiations. -/
def sampleDone : AgentEvent :=
  { type := "done", agent := "gemini", timestamp := 1, sessionId := "sid-a",
    payload := .done .success none zeroUsage 7 }

/-- One task handed to runParallel: the adapter identity, whether its
cancellation token had already tripped when runParallel was invoked, the
driver-generated session id for its state, and the observable behaviour
of its generator. -/
structure ParallelTask where
  agent : String
  aborted : Bool
  sid0 : String
  behavior : AdapterBehavior

/-- Per-task driver state of runParallel (AdapterState in src/types.ts):
the adapter identity, the current session id, the start time, and the
not-yet-pulled part of the generator.  A task whose terminal has been
emitted is dropped from the state list (states[index] = null in the
source), so doneYielded is represented by the surrounding Option. -/
structure PState where
  agent : String
  sessionId : String
  startTime : Int
  remaining : List AgentEvent
  ending : AdapterEnd

/-- The state of task i in the state list (states[index] in the source). -/
def stateAt : List (Option PState) → Nat → Option PState
  | [], _ => none
  | s :: _, 0 => s
  | _ :: rest, n + 1 => stateAt rest n

/-- Handling of one resolved pull of task i in runParallel (src/types.ts
lines 412 to 478): an exhausted generator synthesizes the MISSING_DONE
pair, a throwing generator the ADAPTER_ERROR pair, an event is passed
through after updating the session id, and a done event retires the
task.  Output events are tagged with the producing task index (the tag
records provenance inside the merged stream; the caller-visible stream is
the list of second components). -/
def pstep (i : Nat) (st : PState) (now : Int) :
    List (Nat × AgentEvent) × Option PState :=
  match st.remaining with
  | [] =>
    match st.ending with
    | .exhaust =>
      ([(i, makeSynthError st.agent "MISSING_DONE" missingDoneMessage st.sessionId now),
        (i, makeSynthDone st.agent .error st.sessionId st.startTime now)], none)
    | .throwErr message =>
      ([(i, makeSynthError st.agent "ADAPTER_ERROR" message st.sessionId now),
        (i, makeSynthDone st.agent .error st.sessionId st.startTime now)], none)
  | e :: rest =>
    if e.type = "done" then ([(i, e)], none)
    else ([(i, e)],
      some { st with sessionId := e.sessionId, remaining := rest })

/-- Indices of tasks that still have a live state (the keys of the
pending map in the source). -/
def liveIdxs (states : List (Option PState)) : List Nat :=
  (List.range states.length).filter fun i => (stateAt states i).isSome

/-- Number of pulls a task state can still require. -/
def workOf : Option PState → Nat
  | none => 0
  | some st => st.remaining.length + 1

/-- Total number of pulls all live tasks can still require. -/
def totalWork (states : List (Option PState)) : Nat :=
  (states.map workOf).sum

/-- The merge loop of runParallel (the while loop over the pending map in
src/types.ts lines 400 to 479).  Which pending pull resolves first is not
determined by the program, so the loop takes a scheduling oracle: at
step k the task liveIdxs[sched k mod liveIdxs.length] delivers its next
result.  fuel bounds the number of iterations; runParallel passes the
total remaining work, which suffices for the loop to run until every task
has terminated, exactly as the source loop exits only when the pending
map is empty.  The clock advances by one at each resolved pull. -/
def pickIdx (sched : Nat → Nat) (k : Nat) (states : List (Option PState)) : Nat :=
  (liveIdxs states).getD (sched k % (liveIdxs states).length) 0

def ploop (sched : Nat → Nat) : Nat → List (Option PState) → Nat → Int →
    List (Nat × AgentEvent)
  | 0, _, _, _ => []
  | fuel + 1, states, k, now =>
    if (liveIdxs states).isEmpty then []
    else
      match stateAt states (pickIdx sched k states) with
      | none => []
      | some st =>
        (pstep (pickIdx sched k states) st now).1 ++
          ploop sched fuel
            (states.set (pickIdx sched k states) (pstep (pickIdx sched k states) st now).2)
            (k + 1) (now + 1)

/-- Initial per-task state built by runParallel (src/types.ts lines 334
to 340). -/
def initPState (t : ParallelTask) (t0 : Int) : PState :=
  { agent := t.agent, sessionId := t.sid0, startTime := t0,
    remaining := t.behavior.events, ending := t.behavior.ending }

/-- The global pre-abort path of runParallel (src/types.ts lines 322 to
332): one synthesized interrupted done per task, in task order, each with
a driver-generated session id and a zero duration.  n is the index of the
first task of the remaining list. -/
def preAbortDones (t0 : Int) : Nat → List ParallelTask → List (Nat × AgentEvent)
  | _, [] => []
  | i, t :: rest =>
    (i, makeSynthDone t.agent .interrupted t.sid0 t0 t0) ::
      preAbortDones t0 (i + 1) rest

/-- The parallel driver runParallel (src/types.ts lines 316 to 486) under
a scheduling oracle.  If the token of any task is pre-tripped no adapter is
consulted (the result does not depend on any behaviour) and the
synthesized interrupted terminals are produced in task order; otherwise
the merge loop runs until every task has emitted its terminal. -/
def runParallel (tasks : List ParallelTask) (sched : Nat → Nat) (t0 : Int) :
    List (Nat × AgentEvent) :=
  if tasks.length = 0 then []
  else if tasks.any (fun t => t.aborted) then
    preAbortDones t0 0 tasks
  else
    let states := tasks.map fun t => some (initPState t t0)
    ploop sched (totalWork states) states 0 t0

/-- yieldInterruptedAndCleanup of runParallel (src/types.ts lines 375 to
392): walk the state list in task order and synthesize one done
interrupted for every task that still has a live state, carrying the
current session id and start time of that state.  The first argument is
the index of the first state of the remaining list. -/
def yieldInterruptedFrom (now : Int) : Nat → List (Option PState) →
    List (Nat × AgentEvent)
  | _, [] => []
  | i, none :: rest => yieldInterruptedFrom now (i + 1) rest
  | i, some st :: rest =>
    (i, makeSynthDone st.agent .interrupted st.sessionId st.startTime now) ::
      yieldInterruptedFrom now (i + 1) rest

/-- The merge loop of runParallel when the any-cancel event wins the race
at the given iteration (src/types.ts lines 400 to 406): the loop runs as
ploop until that iteration, then the cancel path emits the interrupted
terminals of every still-live task and the loop stops.  If every task
terminates before that iteration the loop has already exited and the trip
is never observed. -/
def ploopAbort (sched : Nat → Nat) : Nat → Nat → List (Option PState) →
    Nat → Int → List (Nat × AgentEvent)
  | 0, _, states, _, now => yieldInterruptedFrom now 0 states
  | _ + 1, 0, _, _, _ => []
  | a + 1, fuel + 1, states, k, now =>
    if (liveIdxs states).isEmpty then []
    else
      match stateAt states (pickIdx sched k states) with
      | none => []
      | some st =>
        (pstep (pickIdx sched k states) st now).1 ++
          ploopAbort sched a fuel
            (states.set (pickIdx sched k states)
              (pstep (pickIdx sched k states) st now).2)
            (k + 1) (now + 1)

/-- runParallel for a run in which some cancellation token trips during
production, with the any-cancel event winning the merge race at the given
iteration; the pre-abort short circuit is unchanged. -/
def runParallelAbortAt (tasks : List ParallelTask) (sched : Nat → Nat)
    (t0 : Int) (abortStep : Nat) : List (Nat × AgentEvent) :=
  if tasks.length = 0 then []
  else if tasks.any (fun t => t.aborted) then
    preAbortDones t0 0 tasks
  else
    ploopAbort sched abortStep
      (totalWork (tasks.map fun t => some (initPState t t0)))
      (tasks.map fun t => some (initPState t t0)) 0 t0

/-- Projection of the merged stream onto the events produced by (or
synthesized for) task i. -/
def projTask (i : Nat) (out : List (Nat × AgentEvent)) : List AgentEvent :=
  out.filterMap fun p => if p.1 = i then some p.2 else none

/-- Erasure of the clock-dependent parts of an event: the timestamp and,
for a done payload, the measured duration.  Two streams equal after
erasure agree on everything but timing. -/
def stripPayload : Payload → Payload
  | .done status result usage _ => .done status result usage 0
  | p => p

def stripT (e : AgentEvent) : AgentEvent :=
  { type := e.type, agent := e.agent, timestamp := 0,
    sessionId := e.sessionId, payload := stripPayload e.payload }

/-- A sample adapter-produced text event used by concrete instantiations. -/
def sampleText : AgentEvent :=
  { type := "text", agent := "gemini", timestamp := 3, sessionId := "sid-t",
    payload := .text "hi" }

/-- Sample healthy task: yields its own done and returns. -/
def wtaskA : ParallelTask :=
  { agent := "codex", aborted := false, sid0 := "sa",
    behavior := ⟨[sampleDone], .exhaust⟩ }

/-- Sample throwing task: raises before yielding anything. -/
def wtaskB : ParallelTask :=
  { agent := "gemini", aborted := false, sid0 := "sb",
    behavior := ⟨[], .throwErr "boom"⟩ }

/-- Sample pre-aborted task. -/
def wtaskC : ParallelTask :=
  { agent := "opencode", aborted := true, sid0 := "sc",
    behavior := ⟨[], .exhaust⟩ }

/-- Capability levels of the permission policy (src/types.ts). -/
inductive PermissionLevel where
  | allow | ask | deny
deriving DecidableEq, Repr, Fintype

/-- Permission policy triple; every capability may be absent
(src/types.ts PermissionPolicy). -/
structure PermissionPolicy where
  fileWrite : Option PermissionLevel := none
  shellExecute : Option PermissionLevel := none
  networkAccess : Option PermissionLevel := none
deriving DecidableEq, Repr

/-- Codex sandbox modes (src/adapters/codex.ts CodexSandboxMode). -/
inductive CodexSandboxMode where
  | dangerFullAccess | workspaceWrite | readOnly
deriving DecidableEq, Repr

/-- Codex approval policies (src/adapters/codex.ts CodexApprovalPolicy). -/
inductive CodexApprovalPolicy where
  | never | untrusted | onRequest
deriving DecidableEq, Repr

/-- The normalized policy with no absent capability
(Required PermissionPolicy in the source, shared by the Codex and Gemini
adapters which define it identically). -/
structure RequiredPermissionPolicy where
  fileWrite : PermissionLevel
  shellExecute : PermissionLevel
  networkAccess : PermissionLevel
deriving DecidableEq, Repr

namespace Codex

/-- normalizePermissionLevel of the Codex adapter: absent defaults to
ask. -/
def normalizePermissionLevel (value : Option PermissionLevel) : PermissionLevel :=
  value.getD .ask

/-- normalizePermissions of the Codex adapter. -/
def normalizePermissions (policy : Option PermissionPolicy) :
    RequiredPermissionPolicy :=
  { fileWrite := normalizePermissionLevel (policy.bind PermissionPolicy.fileWrite)
    shellExecute := normalizePermissionLevel (policy.bind PermissionPolicy.shellExecute)
    networkAccess := normalizePermissionLevel (policy.bind PermissionPolicy.networkAccess) }

/-- Result triple of the Codex permission mapping. -/
structure CodexPermissionOptions where
  sandboxMode : CodexSandboxMode
  approvalPolicy : CodexApprovalPolicy
  networkAccessEnabled : Bool
deriving DecidableEq, Repr

/-- mapPermissionsToCodexOptions (src/adapters/codex.ts): sandbox mode
from fileWrite and shellExecute, approval policy from all three
capabilities, network flag from networkAccess alone. -/
def mapPermissionsToCodexOptions (policy : Option PermissionPolicy) :
    CodexPermissionOptions :=
  let normalized := normalizePermissions policy
  let sandboxMode : CodexSandboxMode :=
    if normalized.fileWrite = .deny ∨ normalized.shellExecute = .deny then
      .readOnly
    else if normalized.fileWrite = .allow ∧ normalized.shellExecute = .allow then
      .dangerFullAccess
    else
      .workspaceWrite
  let allAllow :=
    normalized.fileWrite = .allow ∧ normalized.shellExecute = .allow ∧
      normalized.networkAccess = .allow
  let anyAsk :=
    normalized.fileWrite = .ask ∨ normalized.shellExecute = .ask ∨
      normalized.networkAccess = .ask
  let approvalPolicy : CodexApprovalPolicy :=
    if allAllow then .never
    else if anyAsk then .untrusted
    else .onRequest
  let networkAccessEnabled : Bool := normalized.networkAccess = .allow
  { sandboxMode := sandboxMode
    approvalPolicy := approvalPolicy
    networkAccessEnabled := networkAccessEnabled }

end Codex

/-- Result of parsing one NDJSON line (src/adapters/ndjson.ts
NDJSONParseResult).  The payload type is a parameter: the host JSON
parser is abstracted as a function into Except, since no checked property
depends on the concrete JSON grammar. -/
inductive NDJSONParseResult (α : Type) where
  | ok (data : α) : NDJSONParseResult α
  | fail (error : String) (raw : List Char) : NDJSONParseResult α
deriving DecidableEq, Repr

/-- Stripping of one trailing carriage return (src/adapters/ndjson.ts
line 18). -/
def stripCR (rawLine : List Char) : List Char :=
  if rawLine.getLast? = some '\r' then rawLine.dropLast else rawLine

/-- parseLine of the framer: strip one trailing carriage return, skip a
line that is empty or whitespace-only, otherwise parse it, turning a
parser failure into a fail result instead of raising.  Buffers are lists
of characters (a JavaScript string is its character sequence). -/
def parseLine {α : Type} (parse : List Char → Except String α)
    (rawLine : List Char) : Option (NDJSONParseResult α) :=
  let line := stripCR rawLine
  if line.all Char.isWhitespace then none
  else
    match parse line with
    | .ok v => some (.ok v)
    | .error e => some (.fail e line)

/-- The inner while loop of parseNDJSON (src/adapters/ndjson.ts lines 44
to 54): repeatedly slice the buffer at the first newline, returning the
complete lines and the remaining partial line. -/
def drainBuffer (buffer : List Char) : List (List Char) × List Char :=
  if h : '\n' ∈ buffer then
    let line := buffer.takeWhile (fun c => c != '\n')
    let rest := (buffer.dropWhile (fun c => c != '\n')).tail
    let p := drainBuffer rest
    (line :: p.1, p.2)
  else ([], buffer)
termination_by buffer.length
decreasing_by
  have h0 : buffer ≠ [] := List.ne_nil_of_mem h
  have h1 : ∀ (p : Char → Bool) (l : List Char),
      (l.dropWhile p).length ≤ l.length := by
    intro p l
    induction l with
    | nil => simp
    | cons c cs ih =>
      by_cases hp : p c
      · simp only [List.dropWhile_cons, hp, if_true, List.length_cons]
        omega
      · simp [List.dropWhile_cons, hp]
  have h2 : 0 < buffer.length := List.length_pos.mpr h0
  have h3 := h1 (fun c => c != '\n') buffer
  simp only [List.length_tail]
  omega

/-- The chunk loop of parseNDJSON (src/adapters/ndjson.ts lines 39 to
62): append each chunk to the buffer, drain complete lines (skipped
lines produce nothing), and at end of stream parse any non-empty
residual as a final line. -/
def parseNDJSONAux {α : Type} (parse : List Char → Except String α) :
    List Char → List (List Char) → List (NDJSONParseResult α)
  | buffer, [] =>
    if buffer.length > 0 then (parseLine parse buffer).toList else []
  | buffer, chunk :: rest =>
    ((drainBuffer (buffer ++ chunk)).1.filterMap (parseLine parse)) ++
      parseNDJSONAux parse (drainBuffer (buffer ++ chunk)).2 rest

/-- parseNDJSON of src/adapters/ndjson.ts: the stream is the list of its
chunks, each chunk its character sequence. -/
def parseNDJSON {α : Type} (parse : List Char → Except String α)
    (chunks : List (List Char)) : List (NDJSONParseResult α) :=
  parseNDJSONAux parse [] chunks

/-- Reference splitter, following the spec words: the newline-delimited
complete lines of a character sequence, plus the residual after the last
newline. -/
def splitNl : List Char → List (List Char) × List Char
  | [] => ([], [])
  | c :: cs =>
    if c = '\n' then
      ([] :: (splitNl cs).1, (splitNl cs).2)
    else
      match splitNl cs with
      | (l :: ls, rem) => ((c :: l) :: ls, rem)
      | ([], rem) => ([], c :: rem)

/-- Reference line decomposition, following the spec words: the
newline-delimited lines, with a non-empty residual parsed as a final
line. -/
def linesSpec (s : List Char) : List (List Char) :=
  (splitNl s).1 ++ (if (splitNl s).2 = [] then [] else [(splitNl s).2])

/-- A sample concrete parser for instantiations: accepts exactly the
one-character line 1. -/
def parseX : List Char → Except String Nat := fun l =>
  if l = ['1'] then .ok 1 else .error "bad"

/-- Adapter options (src/types.ts AgentOptions).  The abort signal is
modelled separately as a Boolean, the numeric fields as integers. -/
structure AgentOptions where
  cwd : Option String := none
  model : Option String := none
  permissions : Option PermissionPolicy := none
  maxTurns : Option Int := none
  maxBudgetUsd : Option Int := none
  resume : Option String := none
  allowedTools : Option (List String) := none
  disallowedTools : Option (List String) := none

/-- createEvent of src/events.ts with the clock and the session id made
explicit arguments. -/
def createEvent (type : String) (agent : String) (payload : Payload)
    (sessionId : String) (now : Int) : AgentEvent :=
  { type := type, agent := agent, timestamp := now, sessionId := sessionId,
    payload := payload }

namespace Gemini

/-- JavaScript property access on a parsed object: the value of the
field, or none when absent (undefined). -/
def lookupField (fields : List (String × Json)) (key : String) : Option Json :=
  fields.lookup key

/-- asString of the Gemini adapter: a non-empty string, else undefined. -/
def asString (value : Option Json) : Option String :=
  match value with
  | some (.str s) => if s.length > 0 then some s else none
  | _ => none

/-- Element walk of asStringArray: non-empty strings pass through,
objects contribute their name field when it is a non-empty string. -/
def asStringArrayAux : List Json → List String
  | [] => []
  | item :: rest =>
    match item with
    | .str s =>
      if s.length > 0 then s :: asStringArrayAux rest else asStringArrayAux rest
    | .obj fields =>
      match asString (lookupField fields "name") with
      | some named => named :: asStringArrayAux rest
      | none => asStringArrayAux rest
    | _ => asStringArrayAux rest

/-- asStringArray of the Gemini adapter. -/
def asStringArray (value : Option Json) : List String :=
  match value with
  | some (.arr items) => asStringArrayAux items
  | _ => []

/-- asRecord of the Gemini adapter: the fields of an object, else an
empty record. -/
def asRecord (value : Option Json) : List (String × Json) :=
  match value with
  | some (.obj fields) => fields
  | _ => []

/-- asNumber of the Gemini adapter (finite numbers; the model has only
integers). -/
def asNumber (value : Option Json) : Option Int :=
  match value with
  | some (.num n) => some n
  | _ => none

/-- Strict-equality-with-true test used for the recoverable flags. -/
def isTrue (value : Option Json) : Bool :=
  match value with
  | some (.bool true) => true
  | _ => false

/-- normalizePermissionLevel of the Gemini adapter: absent defaults to
ask. -/
def normalizePermissionLevel (value : Option PermissionLevel) : PermissionLevel :=
  value.getD .ask

/-- normalizePermissions of the Gemini adapter. -/
def normalizePermissions (policy : Option PermissionPolicy) :
    RequiredPermissionPolicy :=
  { fileWrite := normalizePermissionLevel (policy.bind PermissionPolicy.fileWrite)
    shellExecute := normalizePermissionLevel (policy.bind PermissionPolicy.shellExecute)
    networkAccess := normalizePermissionLevel (policy.bind PermissionPolicy.networkAccess) }

/-- parseToolInput of the Gemini adapter: a string input is parsed as
JSON (falling back to a raw wrapper), anything else is coerced to a
record. -/
def parseToolInput (jparse : List Char → Except String Json)
    (value : Option Json) : Json :=
  match value with
  | some (.str s) =>
    (match jparse s.toList with
     | .ok parsed => .obj (asRecord (some parsed))
     | .error _ => .obj [("raw", .str s)])
  | _ => .obj (asRecord value)

/-- mapDoneStatus of the Gemini adapter (synonym folding, default
success). -/
def mapDoneStatus (rawStatus : Option String) : DoneStatus :=
  match rawStatus with
  | none => .success
  | some raw =>
    if raw.toLower = "success" ∨ raw.toLower = "completed" ∨ raw.toLower = "ok" then
      .success
    else if raw.toLower = "interrupted" ∨ raw.toLower = "cancelled" ∨
        raw.toLower = "aborted" then
      .interrupted
    else if raw.toLower = "max_turns" ∨ raw.toLower = "maxturns" then
      .maxTurns
    else if raw.toLower = "max_budget" ∨ raw.toLower = "maxbudget" ∨
        raw.toLower = "budget_exceeded" then
      .maxBudget
    else if raw.toLower = "error" ∨ raw.toLower = "failed" then
      .error
    else
      .success

/-- mapUsage of the Gemini adapter (field-name synonyms, zero
defaults). -/
def mapUsage (rawUsage : Option Json) : Usage :=
  match rawUsage with
  | some (.obj fields) =>
    { inputTokens := ((asNumber (lookupField fields "inputTokens")) <|>
        (asNumber (lookupField fields "input_tokens"))).getD 0
      outputTokens := ((asNumber (lookupField fields "outputTokens")) <|>
        (asNumber (lookupField fields "output_tokens"))).getD 0
      toolUses := ((asNumber (lookupField fields "toolUses")) <|>
        (asNumber (lookupField fields "tool_uses"))).getD 0
      totalCostUsd := (asNumber (lookupField fields "totalCostUsd")) <|>
        (asNumber (lookupField fields "total_cost_usd")) }
  | _ => zeroUsage

/-- loadSessionId of the Gemini adapter: the first of the session and
thread id synonyms present on the message. -/
def loadSessionId (message : Json) : Option String :=
  match message with
  | .obj fields =>
    (asString (lookupField fields "sessionId")) <|>
    (asString (lookupField fields "session_id")) <|>
    (asString (lookupField fields "threadId")) <|>
    (asString (lookupField fields "thread_id")) <|>
    (match lookupField fields "session" with
     | some (.obj g) => asString (lookupField g "id")
     | _ => none) <|>
    (match lookupField fields "thread" with
     | some (.obj g) => asString (lookupField g "id")
     | _ => none)
  | _ => none

/-- toErrorPayload of the Gemini adapter, over the record of the parsed
message. -/
def toErrorPayload (top : List (String × Json)) : Payload :=
  let nested := asRecord (lookupField top "error")
  Payload.error
    ((asString (lookupField top "code")) <|>
      (asString (lookupField nested "code")) <|>
      (asString (lookupField nested "type")))
    (((asString (lookupField top "message")) <|>
      (asString (lookupField nested "message"))).getD "Gemini CLI error")
    (isTrue (lookupField top "recoverable") || isTrue (lookupField top "retryable") ||
      isTrue (lookupField nested "recoverable") ||
      isTrue (lookupField nested "retryable"))

/-- Exit report of the spawned process (code, signal). -/
structure CloseResult where
  code : Option Int
  signal : Option String

/-- mapExitCodeToDoneStatus of the Gemini adapter: cancellation or
SIGTERM dominate, then the documented exit codes. -/
def mapExitCodeToDoneStatus (close : CloseResult) (aborted : Bool) : DoneStatus :=
  if aborted = true ∨ close.signal = some "SIGTERM" then .interrupted
  else if close.code = some 0 then .success
  else if close.code = some 53 then .maxTurns
  else if close.code = some 1 ∨ close.code = some 42 then .error
  else .error

/-- Insertion into a JavaScript Set modelled as an ordered
duplicate-free list. -/
def addUnique (l : List String) (x : String) : List String :=
  if x ∈ l then l else l ++ [x]

/-- Adding a batch of names to the set. -/
def addAll (l : List String) (xs : List String) : List String :=
  xs.foldl addUnique l

/-- Insertion step of the lexicographic sort used to model the
JavaScript array sort. -/
def insertSorted (x : String) : List String → List String
  | [] => [x]
  | y :: rest => if x ≤ y then x :: y :: rest else y :: insertSorted x rest

/-- Lexicographic string sort ([...set].sort() in the source). -/
def sortStrings (l : List String) : List String :=
  l.foldr insertSorted []

/-- Allow and deny tool sets plus command-line arguments computed from
the permission policy (src/adapters/gemini.ts GeminiToolConfig). -/
structure GeminiToolConfig where
  allowedTools : List String
  disallowedTools : List String
  args : List String

/-- mapPermissionsToGeminiToolConfig: seed the allow and deny sets with
the caller lists, walk the capabilities in declaration order (fileWrite
edit, shellExecute ShellTool, networkAccess webfetch) adding allow
levels to the allow set and deny levels to the deny set, let deny
override allow, then sort both sets. -/
def mapPermissionsToGeminiToolConfig (policy : Option PermissionPolicy)
    (allowedOpt disallowedOpt : Option (List String)) : GeminiToolConfig :=
  let normalized := normalizePermissions policy
  let seeded : List String × List String :=
    (addAll [] (allowedOpt.getD []), addAll [] (disallowedOpt.getD []))
  let step := fun (p : List String × List String)
      (cap : PermissionLevel × List String) =>
    match cap.1 with
    | .allow => (addAll p.1 cap.2, p.2)
    | .deny => (p.1, addAll p.2 cap.2)
    | .ask => p
  let pair := [(normalized.fileWrite, ["edit"]),
    (normalized.shellExecute, ["ShellTool"]),
    (normalized.networkAccess, ["webfetch"])].foldl step seeded
  let allowedAfter :=
    if pair.1.length > 0 then pair.1.filter (fun t => !(pair.2.contains t))
    else pair.1
  let allowedTools := sortStrings allowedAfter
  let disallowedTools := sortStrings pair.2
  let args :=
    if allowedTools.length > 0 then
      ["--allowed-tools", String.intercalate "," allowedTools]
    else []
  { allowedTools := allowedTools, disallowedTools := disallowedTools,
    args := args }

/-- mapAgentOptionsToGeminiCommand: the fixed flags, then model, max
turns and tool flags.  Only the argument list and the tool configuration
are modelled; the spawn options carry no event-relevant data. -/
def mapAgentOptionsToGeminiCommand (prompt : String)
    (options : Option AgentOptions) : List String × GeminiToolConfig :=
  let toolConfig := mapPermissionsToGeminiToolConfig
    (options.bind AgentOptions.permissions)
    (options.bind AgentOptions.allowedTools)
    (options.bind AgentOptions.disallowedTools)
  let args0 := ["--output-format", "stream-json", "--prompt", prompt]
  let args1 := args0 ++
    (match options.bind AgentOptions.model with
     | some m => if m.length > 0 then ["--model", m] else []
     | none => [])
  let args2 := args1 ++
    (match options.bind AgentOptions.maxTurns with
     | some n => ["--max-session-turns", toString n]
     | none => [])
  (args2 ++ toolConfig.args, toolConfig)

/-- buildInitPayload of the Gemini adapter: model and cwd from the
options, then the source event, then defaults; tools from the stream or
the configured allow set; a capabilities bag describing where the tool
list came from. -/
def buildInitPayload (sourceEvent : Option (List (String × Json)))
    (options : Option AgentOptions) (toolConfig : GeminiToolConfig)
    (procCwd : String) : Payload :=
  let sourceTools := asStringArray (sourceEvent.bind (fun f => lookupField f "tools"))
  let tools :=
    if sourceTools.length > 0 then sourceTools
    else if toolConfig.allowedTools.length > 0 then toolConfig.allowedTools
    else []
  Payload.init
    ((options.bind AgentOptions.model).getD
      ((asString (sourceEvent.bind (fun f => lookupField f "model"))).getD "unknown"))
    ((options.bind AgentOptions.cwd).getD
      ((asString (sourceEvent.bind (fun f => lookupField f "cwd"))).getD procCwd))
    tools
    (some (.obj
      [("toolsKnown", .bool (!sourceTools.isEmpty || !toolConfig.allowedTools.isEmpty)),
       ("toolsSource", .str
         (if sourceTools.length > 0 then "stream"
          else if toolConfig.allowedTools.length > 0 then "configured"
          else "unavailable")),
       ("disallowedTools", .arr (toolConfig.disallowedTools.map Json.str))]))

/-- Nullish coalescing over a chain of property reads: the first value
that is neither absent nor null. -/
def firstNonNull : List (Option Json) → Option Json
  | [] => none
  | v :: rest =>
    match v with
    | none => firstNonNull rest
    | some .null => firstNonNull rest
    | some j => some j

/-- Mutable locals of the run loop of GeminiAdapter.run: the current
session id and the initYielded / doneYielded flags. -/
structure GState where
  sessionId : String
  initYielded : Bool
  doneYielded : Bool

/-- Ambient data of one run: the options, the computed tool
configuration, the process working directory, the host JSON parser, the
tool-use id generator output, and the clock (startTime at spawn, now at
the current suspension segment). -/
structure GCtx where
  options : Option AgentOptions
  toolConfig : GeminiToolConfig
  procCwd : String
  jparse : List Char → Except String Json
  freshId : String
  startTime : Int
  now : Int

/-- The yield-init-once guard that precedes every other yield of the run
loop (the three identical if-not-initYielded blocks of the source). -/
def ensureInit (ctx : GCtx) (sourceEvent : Option (List (String × Json)))
    (st : GState) : List AgentEvent × GState :=
  if st.initYielded then ([], st)
  else
    ([createEvent "init" "gemini"
        (buildInitPayload sourceEvent ctx.options ctx.toolConfig ctx.procCwd)
        st.sessionId ctx.now],
     { st with initYielded := true })

/-- Translation of one typed NDJSON message into canonical events
(src/adapters/gemini.ts lines 606 to 705), returning the events and
whether this message was the terminal result.  Unknown types produce
nothing. -/
def translateMessage (ctx : GCtx) (ty : String) (msg : List (String × Json))
    (sid : String) : List AgentEvent × Bool :=
  if ty = "message" then
    (match (asString (lookupField msg "content")) <|>
        (asString (lookupField msg "text")) <|>
        (asString (lookupField msg "message")) with
     | some content => ([createEvent "text" "gemini" (.text content) sid ctx.now], false)
     | none => ([], false))
  else if ty = "tool_use" then
    ([createEvent "tool_use" "gemini"
        (.toolUse
          (((asString (lookupField msg "toolName")) <|>
            (asString (lookupField msg "name"))).getD "unknown_tool")
          (((asString (lookupField msg "toolUseId")) <|>
            (asString (lookupField msg "id")) <|>
            (asString (lookupField msg "callId"))).getD ctx.freshId)
          (parseToolInput ctx.jparse
            (firstNonNull [lookupField msg "input", lookupField msg "args",
              lookupField msg "arguments"]))
          none)
        sid ctx.now], false)
  else if ty = "tool_result" then
    ([createEvent "tool_result" "gemini"
        (.toolResult
          (((asString (lookupField msg "toolUseId")) <|>
            (asString (lookupField msg "id")) <|>
            (asString (lookupField msg "callId"))).getD ctx.freshId)
          (((asString (lookupField msg "toolName")) <|>
            (asString (lookupField msg "name"))).getD "unknown_tool")
          (if (asString (lookupField msg "status")).map String.toLower =
              some "denied" then .denied
           else if isTrue (lookupField msg "isError") ||
              isTrue (lookupField msg "is_error") ||
              (asString (lookupField msg "status")).map String.toLower =
                some "error" then .error
           else .success)
          ((firstNonNull [lookupField msg "output", lookupField msg "result",
            lookupField msg "content"]).getD .null)
          ((asNumber (lookupField msg "durationMs")) <|>
            (asNumber (lookupField msg "duration_ms"))))
        sid ctx.now], false)
  else if ty = "error" then
    ([createEvent "error" "gemini" (toErrorPayload msg) sid ctx.now], false)
  else if ty = "result" then
    ([createEvent "done" "gemini"
        (.done
          (mapDoneStatus (asString (lookupField msg "status")))
          (asString (lookupField msg "result"))
          (mapUsage (lookupField msg "usage"))
          (((asNumber (lookupField msg "durationMs")) <|>
            (asNumber (lookupField msg "duration_ms"))).getD
            (ctx.now - ctx.startTime)))
        sid ctx.now], true)
  else ([], false)

/-- Handling of one framer result inside the for-await loop
(src/adapters/gemini.ts lines 548 to 706): a parse failure emits the
init guard then a recoverable NDJSON_PARSE_ERROR unless the terminal was
already seen; a parsed message first adopts any session id it carries,
is dropped when it has no type, yields init exactly once, and is
suppressed after the terminal. -/
def geminiStep (ctx : GCtx) (st : GState) (r : NDJSONParseResult Json) :
    List AgentEvent × GState :=
  match r with
  | .fail err raw =>
    let p := ensureInit ctx none st
    let out2 :=
      if p.2.doneYielded then []
      else
        [createEvent "error" "gemini"
          (.error (some "NDJSON_PARSE_ERROR")
            ("Failed to parse NDJSON line: " ++ err ++ "; raw: " ++ String.mk raw)
            true)
          p.2.sessionId ctx.now]
    (p.1 ++ out2, p.2)
  | .ok data =>
    let msg := asRecord (some data)
    let st1 := { st with sessionId := (loadSessionId data).getD st.sessionId }
    match asString (lookupField msg "type") with
    | none => ([], st1)
    | some ty =>
      if ty = "init" then ensureInit ctx (some msg) st1
      else
        let p := ensureInit ctx (some msg) st1
        if p.2.doneYielded then (p.1, p.2)
        else
          let q := translateMessage ctx ty msg p.2.sessionId
          (p.1 ++ q.1, { p.2 with doneYielded := q.2 })

/-- The for-await loop over the framer results. -/
def geminiLoop (ctx : GCtx) : GState → List (NDJSONParseResult Json) →
    List AgentEvent × GState
  | st, [] => ([], st)
  | st, r :: rest =>
    let p := geminiStep ctx st r
    let q := geminiLoop ctx p.2 rest
    (p.1 ++ q.1, q.2)

/-- How the run ends after the framer loop: a process close report, or
an exception while spawning, reading or awaiting (carrying its message
when it was an Error). -/
inductive GeminiEnding where
  | closed (close : CloseResult) : GeminiEnding
  | exn (message : Option String) : GeminiEnding

/-- The tail of GeminiAdapter.run after the loop (src/adapters/gemini.ts
lines 708 to 785): on close, the init guard then an exit-code-mapped
done with the trimmed stderr as result on error; on an exception, the
init guard then either an interrupted done (when cancelled) or the
GEMINI_STREAM_ERROR plus done pair; in every case nothing once the
terminal was already emitted. -/
def geminiFinish (ctx : GCtx) (aborted : Bool) (stderrText : String)
    (ending : GeminiEnding) (st : GState) : List AgentEvent :=
  match ending with
  | .closed close =>
    let p := ensureInit ctx none st
    p.1 ++
      (if p.2.doneYielded then []
       else
         [createEvent "done" "gemini"
           (.done (mapExitCodeToDoneStatus close aborted)
             (if mapExitCodeToDoneStatus close aborted = .error ∧
                 stderrText.trim.length > 0 then
               some stderrText.trim
             else none)
             zeroUsage (ctx.now - ctx.startTime))
           p.2.sessionId ctx.now])
  | .exn m =>
    let p := ensureInit ctx none st
    p.1 ++
      (if p.2.doneYielded then []
       else if aborted then
         [createEvent "done" "gemini"
           (.done .interrupted none zeroUsage (ctx.now - ctx.startTime))
           p.2.sessionId ctx.now]
       else
         [createEvent "error" "gemini"
           (.error (some "GEMINI_STREAM_ERROR")
             (m.getD "Gemini adapter failed while reading stream") false)
           p.2.sessionId ctx.now,
          createEvent "done" "gemini"
           (.done .error none zeroUsage (ctx.now - ctx.startTime))
           p.2.sessionId ctx.now])

/-- One observable execution of the spawned process: the stdout chunks,
how the run ended, whether cancellation was requested, and the collected
stderr text. -/
structure GeminiExec where
  stdout : List (List Char)
  ending : GeminiEnding
  aborted : Bool
  stderrText : String

/-- GeminiAdapter.run (src/adapters/gemini.ts lines 461 to 809) as a
function of the prompt, the options, and one observable process
execution.  procCwd models process.cwd(), sid0 the generated provisional
session id, freshId the generated tool-use id fallback, jparse the host
JSON parser. -/
def geminiRun (prompt : String) (options : Option AgentOptions)
    (procCwd sid0 freshId : String) (jparse : List Char → Except String Json)
    (startTime now : Int) (exec : GeminiExec) : List AgentEvent :=
  let mapped := mapAgentOptionsToGeminiCommand prompt options
  let ctx : GCtx :=
    { options := options, toolConfig := mapped.2, procCwd := procCwd,
      jparse := jparse, freshId := freshId, startTime := startTime, now := now }
  let st0 : GState :=
    { sessionId := (options.bind AgentOptions.resume).getD sid0,
      initYielded := false, doneYielded := false }
  let results := parseNDJSON (fun l => jparse l) exec.stdout
  let p := geminiLoop ctx st0 results
  p.1 ++ geminiFinish ctx exec.aborted exec.stderrText exec.ending p.2

end Gemini

/-- Number of init-typed events in a stream. -/
def countInit (events : List AgentEvent) : Nat :=
  (events.filter (fun e => e.type = "init")).length

/-- Init discipline of one output segment of the run: if the init was
already yielded the segment contains no init and the flag stays set;
otherwise the segment is either empty with the flag still unset, or
starts with the init (followed by no other init) with the flag now
set. -/
def GoodSeg : Bool → List AgentEvent → Bool → Prop
  | true, out, started' => countInit out = 0 ∧ started' = true
  | false, out, started' =>
      (out = [] ∧ started' = false) ∨
      ((∃ e t, out = e :: t ∧ e.type = "init" ∧ countInit t = 0) ∧
        started' = true)

/-- The last-element query of a nonempty list is some value. -/
theorem getLast?_cons_isSome (a : AgentEvent) (l : List AgentEvent) :
    ((a :: l).getLast?).isSome := by
  induction l generalizing a with
  | nil => simp
  | cons b t ih =>
    rw [List.getLast?_cons_cons]
    exact ih b

/-- Peeling one event off the front of lastSid: the provisional id is
replaced by the id of the first event. -/
theorem lastSid_cons (sid : String) (e : AgentEvent) (rest : List AgentEvent) :
    lastSid sid (e :: rest) = lastSid e.sessionId rest := by
  cases rest with
  | nil => simp [lastSid]
  | cons r rs =>
    obtain ⟨x, hx⟩ := Option.isSome_iff_exists.mp (getLast?_cons_isSome r rs)
    simp [lastSid, List.getLast?_cons_cons, hx]

/-- If the adapter yields no done event, the driver loop passes every
adapter event through and appends the synthesized error plus done pair,
carrying the session id of the last adapter event (or the provisional id
when there was none). -/
theorem runLoop_no_done (agent : String) (ending : AdapterEnd)
    (startTime endTime : Int) :
    ∀ (events : List AgentEvent) (sid : String),
      (∀ e ∈ events, e.type ≠ "done") →
      runLoop agent ending sid startTime endTime events =
        events ++ runLoop agent ending (lastSid sid events) startTime endTime [] := by
  intro events
  induction events with
  | nil => intro sid _; simp [lastSid]
  | cons e rest ih =>
    intro sid h
    have he : e.type ≠ "done" := h e (List.mem_cons_self e rest)
    have hrest : ∀ x ∈ rest, x.type ≠ "done" :=
      fun x hx => h x (List.mem_cons_of_mem e hx)
    rw [lastSid_cons]
    show runLoop agent ending sid startTime endTime (e :: rest) =
      (e :: rest) ++ runLoop agent ending (lastSid e.sessionId rest) startTime endTime []
    simp only [runLoop, if_neg he]
    rw [ih e.sessionId hrest, List.cons_append]
    cases ending <;> rfl

/-- When a done event is among the yielded events, the loop result does
not depend on how the generator would have finished afterwards: the
driver stops pulling at the done. -/
theorem runLoop_ending_irrelevant (agent : String) (startTime endTime : Int) :
    ∀ (events : List AgentEvent) (sid : String),
      (∃ e ∈ events, e.type = "done") →
      ∀ (ending ending' : AdapterEnd),
        runLoop agent ending sid startTime endTime events =
          runLoop agent ending' sid startTime endTime events := by
  intro events
  induction events with
  | nil =>
    intro sid h
    simp at h
  | cons e rest ih =>
    intro sid h ending ending'
    by_cases he : e.type = "done"
    · simp [runLoop, he]
    · obtain ⟨x, hx, hxd⟩ := h
      have hxr : x ∈ rest := by
        rcases List.mem_cons.mp hx with h1 | h1
        · exact absurd (h1 ▸ hxd) he
        · exact h1
      simp only [runLoop, if_neg he]
      rw [ih e.sessionId ⟨x, hxr, hxd⟩ ending ending']

/-- Every result of the driver loop splits as a done-free prefix followed
by exactly one final done event. -/
theorem runLoop_shape (agent : String) (ending : AdapterEnd)
    (startTime endTime : Int) :
    ∀ (events : List AgentEvent) (sid : String),
      ∃ pre d, runLoop agent ending sid startTime endTime events = pre ++ [d] ∧
        d.type = "done" ∧ ∀ e ∈ pre, e.type ≠ "done" := by
  intro events
  induction events with
  | nil =>
    intro sid
    cases ending with
    | exhaust =>
      refine ⟨[makeSynthError agent "MISSING_DONE" missingDoneMessage sid endTime],
        makeSynthDone agent .error sid startTime endTime, rfl, rfl, ?_⟩
      intro e he
      rw [List.mem_singleton.mp he]
      intro hc
      exact absurd hc (by simp [makeSynthError])
    | throwErr message =>
      refine ⟨[makeSynthError agent "ADAPTER_ERROR" message sid endTime],
        makeSynthDone agent .error sid startTime endTime, rfl, rfl, ?_⟩
      intro e he
      rw [List.mem_singleton.mp he]
      intro hc
      exact absurd hc (by simp [makeSynthError])
  | cons e rest ih =>
    intro sid
    by_cases he : e.type = "done"
    · exact ⟨[], e, by simp [runLoop, he], he, by simp⟩
    · obtain ⟨pre, d, heq, hd, hpre⟩ := ih e.sessionId
      refine ⟨e :: pre, d, ?_, hd, ?_⟩
      · simp [runLoop, if_neg he, heq]
      · intro x hx
        rcases List.mem_cons.mp hx with h1 | h1
        · exact h1 ▸ he
        · exact hpre x h1

/-- A stream of the split shape has exactly one done-typed event. -/
theorem countDone_of_shape {out pre : List AgentEvent} {d : AgentEvent}
    (heq : out = pre ++ [d]) (hd : d.type = "done")
    (hpre : ∀ e ∈ pre, e.type ≠ "done") : countDone out = 1 := by
  subst heq
  unfold countDone
  rw [List.filter_append]
  have h1 : pre.filter (fun e => e.type = "done") = [] := by
    rw [List.filter_eq_nil_iff]
    intro e he
    simpa using hpre e he
  rw [h1]
  simp [hd]

/-- Claim C1: for every adapter behaviour (a finite sequence of yielded
events followed by a clean return, an exception, or the adapter producing
its own done), and whether or not the cancellation token was pre-tripped,
the stream produced by runAgent contains exactly one event of type done,
and no event of any type is yielded after that done: the output is a
done-free prefix followed by the single terminal done. -/
theorem claim_C1_terminal_unique_and_final (agent : String) (aborted : Bool)
    (sessionId0 : String) (startTime endTime : Int)
    (behavior : AdapterBehavior) :
    ∃ pre d,
      runAgent agent aborted sessionId0 startTime endTime behavior = pre ++ [d] ∧
      d.type = "done" ∧ (∀ e ∈ pre, e.type ≠ "done") ∧
      countDone (runAgent agent aborted sessionId0 startTime endTime behavior) = 1 := by
  cases aborted with
  | true =>
    refine ⟨[], makeSynthDone agent .interrupted sessionId0 startTime startTime,
      rfl, rfl, by simp, ?_⟩
    have hsh : runAgent agent true sessionId0 startTime endTime behavior =
        [] ++ [makeSynthDone agent .interrupted sessionId0 startTime startTime] :=
      rfl
    exact countDone_of_shape hsh rfl (by simp)
  | false =>
    obtain ⟨pre, d, heq, hd, hpre⟩ :=
      runLoop_shape agent behavior.ending startTime endTime behavior.events sessionId0
    exact ⟨pre, d, heq, hd, hpre, countDone_of_shape heq hd hpre⟩

/-- Claim C3, counterexample: for the adapter that exhausts without
yielding anything, the MISSING_DONE error emitted by runAgent carries the
message with a capital P, not the lowercase message the claim states, so
the claim fails at this input. -/
theorem claim_C3_missing_done_cex :
    ((runAgent "gemini" false "s0" 0 0 ⟨[], .exhaust⟩).head?.bind errMsg?) =
      some "Protocol violation: adapter completed without terminal event" ∧
    ¬ ((runAgent "gemini" false "s0" 0 0 ⟨[], .exhaust⟩).head?.bind errMsg?) =
      some "protocol violation: adapter completed without terminal event" := by
  constructor
  · rfl
  · decide

/-- Claim C3 as amended: an adapter that yields events with no done and
then exhausts produces exactly those events, then an error event with
code MISSING_DONE, recoverable false and message "Protocol violation:
adapter completed without terminal event" (capital P, as the code spells
it), then a done event with status error and zeroed usage; the
synthesized pair carries the last adapter session id. -/
theorem claim_C3_missing_done_amended (agent sid : String) (t0 t1 : Int)
    (events : List AgentEvent) (h : ∀ e ∈ events, e.type ≠ "done") :
    runAgent agent false sid t0 t1 ⟨events, .exhaust⟩ =
      events ++
      [{ type := "error", agent := agent, timestamp := t1,
         sessionId := lastSid sid events,
         payload := .error (some "MISSING_DONE")
           "Protocol violation: adapter completed without terminal event" false },
       { type := "done", agent := agent, timestamp := t1,
         sessionId := lastSid sid events,
         payload := .done .error none zeroUsage (t1 - t0) }] := by
  show runLoop agent .exhaust sid t0 t1 events = _
  rw [runLoop_no_done agent .exhaust t0 t1 events sid h]
  rfl

/-- Concrete instantiation of the amended C3 statement. -/
theorem claim_C3_missing_done_witness :
    runAgent "gemini" false "s0" 2 5 ⟨[], .exhaust⟩ =
      [{ type := "error", agent := "gemini", timestamp := 5, sessionId := "s0",
         payload := .error (some "MISSING_DONE")
           "Protocol violation: adapter completed without terminal event" false },
       { type := "done", agent := "gemini", timestamp := 5, sessionId := "s0",
         payload := .done .error none zeroUsage 3 }] :=
  claim_C3_missing_done_amended "gemini" "s0" 2 5 [] (by simp)

/-- Claim C4: if the adapter generator throws before yielding a done
event, runAgent yields one synthesized error event with code
ADAPTER_ERROR, the exception text as message and recoverable false,
followed by one done event with status error and zeroed usage, and stops;
if the throw would occur after the adapter yielded its own done, the
exception is swallowed: the output equals the output of the cleanly
returning adapter and ends at the done.  In the model runAgent is a total
function into event lists, so no exception ever reaches the caller. -/
theorem claim_C4_adapter_error (agent sid : String) (t0 t1 : Int)
    (events : List AgentEvent) (msg : String) :
    ((∀ e ∈ events, e.type ≠ "done") →
      runAgent agent false sid t0 t1 ⟨events, .throwErr msg⟩ =
        events ++
        [{ type := "error", agent := agent, timestamp := t1,
           sessionId := lastSid sid events,
           payload := .error (some "ADAPTER_ERROR") msg false },
         { type := "done", agent := agent, timestamp := t1,
           sessionId := lastSid sid events,
           payload := .done .error none zeroUsage (t1 - t0) }]) ∧
    ((∃ e ∈ events, e.type = "done") →
      runAgent agent false sid t0 t1 ⟨events, .throwErr msg⟩ =
        runAgent agent false sid t0 t1 ⟨events, .exhaust⟩ ∧
      ∃ pre d, runAgent agent false sid t0 t1 ⟨events, .throwErr msg⟩ = pre ++ [d] ∧
        d.type = "done" ∧ ∀ e ∈ pre, e.type ≠ "done") := by
  constructor
  · intro h
    show runLoop agent (.throwErr msg) sid t0 t1 events = _
    rw [runLoop_no_done agent (.throwErr msg) t0 t1 events sid h]
    rfl
  · intro h
    refine ⟨runLoop_ending_irrelevant agent t0 t1 events sid h _ _, ?_⟩
    exact runLoop_shape agent (.throwErr msg) t0 t1 events sid

/-- Concrete instantiation of both parts of C4. -/
theorem claim_C4_adapter_error_witness :
    (runAgent "gemini" false "s0" 0 4 ⟨[], .throwErr "boom"⟩ =
      [{ type := "error", agent := "gemini", timestamp := 4, sessionId := "s0",
         payload := .error (some "ADAPTER_ERROR") "boom" false },
       { type := "done", agent := "gemini", timestamp := 4, sessionId := "s0",
         payload := .done .error none zeroUsage 4 }]) ∧
    runAgent "gemini" false "s0" 0 4 ⟨[sampleDone], .throwErr "boom"⟩ =
      runAgent "gemini" false "s0" 0 4 ⟨[sampleDone], .exhaust⟩ :=
  ⟨(claim_C4_adapter_error "gemini" "s0" 0 4 [] "boom").1 (by simp),
   ((claim_C4_adapter_error "gemini" "s0" 0 4 [sampleDone] "boom").2
     ⟨sampleDone, List.mem_singleton.mpr rfl, rfl⟩).1⟩

/-- A live state sits at a valid index. -/
theorem stateAt_lt_length :
    ∀ {states : List (Option PState)} {i : Nat} {st : PState},
      stateAt states i = some st → i < states.length := by
  intro states
  induction states with
  | nil => intro i st h; cases i <;> simp [stateAt] at h
  | cons a rest ih =>
    intro i st h
    cases i with
    | zero => simp
    | succ n => exact Nat.succ_lt_succ (ih h)

/-- Updating index i changes exactly the state at i. -/
theorem stateAt_set_self :
    ∀ (states : List (Option PState)) (i : Nat) (st' : Option PState),
      i < states.length → stateAt (states.set i st') i = st' := by
  intro states
  induction states with
  | nil => intro i st' h; exact absurd h (by simp)
  | cons a rest ih =>
    intro i st' h
    cases i with
    | zero => rfl
    | succ n => exact ih n st' (Nat.lt_of_succ_lt_succ h)

/-- Updating index i leaves every other index unchanged. -/
theorem stateAt_set_ne :
    ∀ (states : List (Option PState)) (i j : Nat) (st' : Option PState),
      i ≠ j → stateAt (states.set i st') j = stateAt states j := by
  intro states
  induction states with
  | nil => intro i j st' _; cases i <;> rfl
  | cons a rest ih =>
    intro i j st' hne
    cases i with
    | zero =>
      cases j with
      | zero => exact absurd rfl hne
      | succ m => rfl
    | succ n =>
      cases j with
      | zero => rfl
      | succ m => exact ih n m st' (fun hc => hne (by rw [hc]))

/-- Membership in the live index list. -/
theorem mem_liveIdxs {states : List (Option PState)} {i : Nat} :
    i ∈ liveIdxs states ↔ i < states.length ∧ (stateAt states i).isSome := by
  simp [liveIdxs, List.mem_filter, List.mem_range]

/-- getD with an in-range index returns a member of the list. -/
theorem getD_mem_of_lt :
    ∀ (l : List Nat) (m : Nat), m < l.length → l.getD m 0 ∈ l := by
  intro l
  induction l with
  | nil => intro m h; exact absurd h (by simp)
  | cons a rest ih =>
    intro m h
    cases m with
    | zero => exact List.mem_cons_self a rest
    | succ n =>
      exact List.mem_cons_of_mem a (ih n (Nat.lt_of_succ_lt_succ h))

/-- The scheduling oracle always picks a live index while one exists. -/
theorem pickIdx_mem (sched : Nat → Nat) (k : Nat)
    (states : List (Option PState)) (h : ¬(liveIdxs states).isEmpty) :
    pickIdx sched k states ∈ liveIdxs states := by
  have hpos : 0 < (liveIdxs states).length := by
    cases hl : liveIdxs states with
    | nil => rw [hl] at h; simp at h
    | cons a t => simp [hl]
  exact getD_mem_of_lt _ _ (Nat.mod_lt _ hpos)

/-- One pull strictly decreases the work a task can still require. -/
theorem workOf_pstep (i : Nat) (st : PState) (now : Int) :
    workOf (pstep i st now).2 < workOf (some st) := by
  rcases st with ⟨a, sid, t0, rem, ending⟩
  cases rem with
  | nil => cases ending <;> simp [pstep, workOf]
  | cons e rest =>
    by_cases hd : e.type = "done" <;> simp [pstep, workOf, hd]

/-- A live state contributes its work to the total. -/
theorem workOf_le_totalWork :
    ∀ (states : List (Option PState)) (i : Nat) (st : PState),
      stateAt states i = some st → workOf (some st) ≤ totalWork states := by
  intro states
  induction states with
  | nil => intro i st h; cases i <;> simp [stateAt] at h
  | cons a rest ih =>
    intro i st h
    cases i with
    | zero =>
      have : a = some st := h
      simp [totalWork, this]
    | succ n =>
      have := ih n st h
      simp [totalWork] at this ⊢
      omega

/-- Replacing a live state by a lighter one strictly decreases the total
work. -/
theorem totalWork_set_lt :
    ∀ (states : List (Option PState)) (i : Nat) (st : PState)
      (st' : Option PState),
      stateAt states i = some st → workOf st' < workOf (some st) →
      totalWork (states.set i st') < totalWork states := by
  intro states
  induction states with
  | nil => intro i st st' h _; cases i <;> simp [stateAt] at h
  | cons a rest ih =>
    intro i st st' h hlt
    cases i with
    | zero =>
      have ha : a = some st := h
      simp [totalWork, List.set, ha]
      omega
    | succ n =>
      have := ih n st st' h hlt
      simp [totalWork, List.set] at this ⊢
      omega

/-- Every event a pull of task i produces is tagged with i. -/
theorem pstep_tags (i : Nat) (st : PState) (now : Int) :
    ∀ p ∈ (pstep i st now).1, p.1 = i := by
  unfold pstep
  cases st.remaining with
  | nil => cases st.ending <;> intro p hp <;> simp at hp <;> rcases hp with h | h <;> simp [h]
  | cons e rest =>
    by_cases hd : e.type = "done" <;> intro p hp <;> simp [hd] at hp <;> simp [hp]

/-- Projection distributes over append. -/
theorem projTask_append (i : Nat) (a b : List (Nat × AgentEvent)) :
    projTask i (a ++ b) = projTask i a ++ projTask i b :=
  List.filterMap_append a b _

/-- Projection drops a block tagged with a different task. -/
theorem projTask_foreign {i : Nat} {out : List (Nat × AgentEvent)}
    (h : ∀ p ∈ out, p.1 ≠ i) : projTask i out = [] := by
  unfold projTask
  rw [List.filterMap_eq_nil_iff]
  intro p hp
  simp [h p hp]

/-- Projection keeps a block tagged with the same task. -/
theorem projTask_own {i : Nat} {out : List (Nat × AgentEvent)}
    (h : ∀ p ∈ out, p.1 = i) : projTask i out = out.map Prod.snd := by
  induction out with
  | nil => rfl
  | cons p rest ih =>
    have hp : p.1 = i := h p (List.mem_cons_self p rest)
    have hrest : ∀ q ∈ rest, q.1 = i := fun q hq => h q (List.mem_cons_of_mem p hq)
    have hstep : projTask i (p :: rest) = p.2 :: projTask i rest := by
      simp [projTask, hp]
    rw [hstep, ih hrest]
    rfl

/-- Time erasure of a synthesized error event. -/
theorem stripT_synthError (a c m s : String) (now : Int) :
    stripT (makeSynthError a c m s now) = makeSynthError a c m s 0 := rfl

/-- Time erasure of a synthesized done event. -/
theorem stripT_synthDone (a : String) (status : DoneStatus) (s : String)
    (t0 now : Int) :
    stripT (makeSynthDone a status s t0 now) = makeSynthDone a status s 0 0 := by
  simp [stripT, makeSynthDone, stripPayload]

/-- A task with no live state contributes nothing to the merge loop. -/
theorem proj_dead (sched : Nat → Nat) :
    ∀ (fuel : Nat) (states : List (Option PState)) (k : Nat) (now : Int)
      (i : Nat),
      stateAt states i = none →
      projTask i (ploop sched fuel states k now) = [] := by
  intro fuel
  induction fuel with
  | zero => intro states k now i _; rfl
  | succ fuel ih =>
    intro states k now i hdead
    cases hemp : (liveIdxs states).isEmpty with
    | true => simp [ploop, hemp, projTask]
    | false =>
      have hemp' : ¬(liveIdxs states).isEmpty = true := by simp [hemp]
      generalize hj : pickIdx sched k states = j
      have hjmem : j ∈ liveIdxs states := hj ▸ pickIdx_mem sched k states hemp'
      obtain ⟨hjlt, hjsome⟩ := mem_liveIdxs.mp hjmem
      cases hstj : stateAt states j with
      | none => rw [hstj] at hjsome; simp at hjsome
      | some stj =>
        have hji : j ≠ i := by
          intro hc
          rw [hc, hdead] at hstj
          exact absurd hstj (by simp)
        have hrw : ploop sched (fuel + 1) states k now =
            (pstep j stj now).1 ++
              ploop sched fuel (states.set j (pstep j stj now).2)
                (k + 1) (now + 1) := by
          simp only [ploop, hemp, hj, hstj]
          simp
        rw [hrw, projTask_append]
        rw [projTask_foreign (fun p hp => by rw [pstep_tags j stj now p hp]; exact hji)]
        rw [ih (states.set j (pstep j stj now).2) (k + 1) (now + 1) i
          (by rw [stateAt_set_ne states j i _ hji]; exact hdead)]
        rfl

/-- Error isolation and lifecycle of a live task in the merge loop: with
enough fuel (runParallel supplies the total remaining work), the
projection of a live task equals, up to timing, what the single-session
pull loop would produce for that task state, regardless of the other
tasks and of the scheduling oracle. -/
theorem proj_live (sched : Nat → Nat) :
    ∀ (fuel : Nat) (states : List (Option PState)) (k : Nat) (now : Int)
      (i : Nat) (st : PState),
      totalWork states ≤ fuel → stateAt states i = some st →
      (projTask i (ploop sched fuel states k now)).map stripT =
        (runLoop st.agent st.ending st.sessionId 0 0 st.remaining).map stripT := by
  intro fuel
  induction fuel with
  | zero =>
    intro states k now i st hfuel hst
    have h1 := workOf_le_totalWork states i st hst
    simp [workOf] at h1
    omega
  | succ fuel ih =>
    intro states k now i st hfuel hst
    have hilive : i ∈ liveIdxs states :=
      mem_liveIdxs.mpr ⟨stateAt_lt_length hst, by rw [hst]; rfl⟩
    have hemp : (liveIdxs states).isEmpty = false := by
      cases hl : liveIdxs states with
      | nil => rw [hl] at hilive; simp at hilive
      | cons a t => rfl
    have hemp' : ¬(liveIdxs states).isEmpty = true := by simp [hemp]
    generalize hj : pickIdx sched k states = j
    have hjmem : j ∈ liveIdxs states := hj ▸ pickIdx_mem sched k states hemp'
    obtain ⟨hjlt, hjsome⟩ := mem_liveIdxs.mp hjmem
    by_cases hij : j = i
    · subst hij
      have hrw : ploop sched (fuel + 1) states k now =
          (pstep j st now).1 ++
            ploop sched fuel (states.set j (pstep j st now).2)
              (k + 1) (now + 1) := by
        simp only [ploop, hemp, hj, hst]
        simp
      rw [hrw, projTask_append, projTask_own (pstep_tags j st now)]
      rcases hrem : st.remaining with _ | ⟨e, rest⟩
      · have hnone : (pstep j st now).2 = none := by
          cases hend : st.ending <;> simp [pstep, hrem, hend]
        have hdead2 : stateAt (states.set j (pstep j st now).2) j = none := by
          rw [hnone]
          exact stateAt_set_self states j none hjlt
        rw [proj_dead sched fuel _ _ _ j hdead2]
        rcases hend : st.ending with _ | m <;>
          simp [pstep, hrem, hend, runLoop, stripT_synthError, stripT_synthDone,
            stripT, makeSynthError, makeSynthDone, stripPayload]
      · by_cases hdone : e.type = "done"
        · have hstep1 : (pstep j st now).1 = [(j, e)] := by
            simp [pstep, hrem, hdone]
          have hnone : (pstep j st now).2 = none := by
            simp [pstep, hrem, hdone]
          have hdead2 : stateAt (states.set j (pstep j st now).2) j = none := by
            rw [hnone]
            exact stateAt_set_self states j none hjlt
          rw [proj_dead sched fuel _ _ _ j hdead2, hstep1]
          simp [runLoop, hrem, hdone]
        · have hstep1 : (pstep j st now).1 = [(j, e)] := by
            simp [pstep, hrem, hdone]
          have hstep2 : (pstep j st now).2 =
              some { st with sessionId := e.sessionId, remaining := rest } := by
            simp [pstep, hrem, hdone]
          have hfuel2 : totalWork (states.set j (pstep j st now).2) ≤ fuel := by
            have := totalWork_set_lt states j st _ hst (workOf_pstep j st now)
            omega
          have hst2 : stateAt (states.set j (pstep j st now).2) j =
              some { st with sessionId := e.sessionId, remaining := rest } := by
            rw [hstep2]
            exact stateAt_set_self states j _ hjlt
          have hih := ih (states.set j (pstep j st now).2) (k + 1) (now + 1)
            j _ hfuel2 hst2
          rw [hstep1]
          have hih' :
              List.map stripT (projTask j (ploop sched fuel
                (states.set j (pstep j st now).2) (k + 1) (now + 1))) =
              List.map stripT (runLoop st.agent st.ending e.sessionId 0 0 rest) := by
            simpa using hih
          simp [runLoop, hdone, hih']
    · cases hstj : stateAt states j with
      | none => rw [hstj] at hjsome; simp at hjsome
      | some stj =>
        have hrw : ploop sched (fuel + 1) states k now =
            (pstep j stj now).1 ++
              ploop sched fuel (states.set j (pstep j stj now).2)
                (k + 1) (now + 1) := by
          simp only [ploop, hemp, hj, hstj]
          simp
        have hpres : stateAt (states.set j (pstep j stj now).2) i = some st := by
          rw [stateAt_set_ne states j i _ hij]
          exact hst
        have hfuel2 : totalWork (states.set j (pstep j stj now).2) ≤ fuel := by
          have := totalWork_set_lt states j stj _ hstj (workOf_pstep j stj now)
          omega
        rw [hrw, projTask_append,
          projTask_foreign (fun p hp => by rw [pstep_tags j stj now p hp]; exact hij)]
        rw [List.nil_append]
        exact ih _ (k + 1) (now + 1) i st hfuel2 hpres

/-- The pre-abort path emits one event per task. -/
theorem preAbortDones_length (t0 : Int) :
    ∀ (tasks : List ParallelTask) (n : Nat),
      (preAbortDones t0 n tasks).length = tasks.length := by
  intro tasks
  induction tasks with
  | nil => intro n; rfl
  | cons t rest ih => intro n; simp [preAbortDones, ih (n + 1)]

/-- The i-th event of the pre-abort path is the interrupted terminal of
the i-th task. -/
theorem preAbortDones_get? (t0 : Int) :
    ∀ (tasks : List ParallelTask) (n i : Nat) (h : i < tasks.length),
      (preAbortDones t0 n tasks).get? i =
        some (n + i, makeSynthDone (tasks.get ⟨i, h⟩).agent .interrupted
          (tasks.get ⟨i, h⟩).sid0 t0 t0) := by
  intro tasks
  induction tasks with
  | nil => intro n i h; exact absurd h (by simp)
  | cons t rest ih =>
    intro n i h
    cases i with
    | zero => simp [preAbortDones]
    | succ m =>
      have hm : m < rest.length := Nat.lt_of_succ_lt_succ h
      have := ih (n + 1) m hm
      simp only [preAbortDones, List.get?_cons_succ]
      rw [this]
      congr 2
      omega

/-- Every tag of the pre-abort path is at least the starting index. -/
theorem preAbortDones_tags_ge (t0 : Int) :
    ∀ (tasks : List ParallelTask) (n : Nat),
      ∀ p ∈ preAbortDones t0 n tasks, n ≤ p.1 := by
  intro tasks
  induction tasks with
  | nil => intro n p hp; simp [preAbortDones] at hp
  | cons t rest ih =>
    intro n p hp
    rcases List.mem_cons.mp hp with h1 | h1
    · rw [h1]
    · have := ih (n + 1) p h1
      omega

/-- Projection of the pre-abort path onto one task: exactly its single
interrupted terminal when the index is in range. -/
theorem projTask_preAbort (t0 : Int) :
    ∀ (tasks : List ParallelTask) (n i : Nat),
      projTask (n + i) (preAbortDones t0 n tasks) =
        if h : i < tasks.length then
          [makeSynthDone (tasks.get ⟨i, h⟩).agent .interrupted
            (tasks.get ⟨i, h⟩).sid0 t0 t0]
        else [] := by
  intro tasks
  induction tasks with
  | nil => intro n i; simp [preAbortDones, projTask]
  | cons t rest ih =>
    intro n i
    cases i with
    | zero =>
      have hforeign : projTask (n + 0) (preAbortDones t0 (n + 1) rest) = [] := by
        apply projTask_foreign
        intro p hp
        have := preAbortDones_tags_ge t0 rest (n + 1) p hp
        omega
      simp [preAbortDones, projTask, List.filterMap_cons] at hforeign ⊢
      exact hforeign
    | succ m =>
      have hne : ¬(n = n + (m + 1)) := by omega
      have hstep : projTask (n + (m + 1)) (preAbortDones t0 n (t :: rest)) =
          projTask (n + (m + 1)) (preAbortDones t0 (n + 1) rest) := by
        simp [preAbortDones, projTask, List.filterMap_cons, hne]
      rw [hstep]
      have := ih (n + 1) m
      have harith : n + 1 + m = n + (m + 1) := by omega
      rw [harith] at this
      rw [this]
      by_cases hm : m < rest.length
      · rw [dif_pos hm]
        simp only [List.length_cons]
        rw [dif_pos (show m + 1 < rest.length + 1 by omega)]
        rfl
      · rw [dif_neg hm]
        simp only [List.length_cons]
        rw [dif_neg (show ¬m + 1 < rest.length + 1 by omega)]

/-- The initial state list of the merge loop, position by position. -/
theorem stateAt_init (t0 : Int) :
    ∀ (tasks : List ParallelTask) (i : Nat) (h : i < tasks.length),
      stateAt (tasks.map fun t => some (initPState t t0)) i =
        some (initPState (tasks.get ⟨i, h⟩) t0) := by
  intro tasks
  induction tasks with
  | nil => intro i h; exact absurd h (by simp)
  | cons t rest ih =>
    intro i h
    cases i with
    | zero => rfl
    | succ m => exact ih m (Nat.lt_of_succ_lt_succ h)

/-- Time erasure does not change which events are done-typed. -/
theorem countDone_map_stripT (l : List AgentEvent) :
    countDone (l.map stripT) = countDone l := by
  induction l with
  | nil => rfl
  | cons e t ih =>
    have htype : (stripT e).type = e.type := rfl
    by_cases hd : e.type = "done"
    · simp [countDone, List.filter_cons, htype, hd] at ih ⊢
      exact ih
    · simp [countDone, List.filter_cons, htype, hd] at ih ⊢
      exact ih

/-- The projection of one task out of the merged parallel stream equals,
up to timing, the single-session pull loop on that task alone: the other
tasks and the scheduling order leave it unchanged. -/
theorem runParallel_proj (tasks : List ParallelTask) (sched : Nat → Nat)
    (t0 : Int) (hnoab : ∀ t ∈ tasks, t.aborted = false) (i : Nat)
    (h : i < tasks.length) :
    (projTask i (runParallel tasks sched t0)).map stripT =
      (runLoop (tasks.get ⟨i, h⟩).agent (tasks.get ⟨i, h⟩).behavior.ending
        (tasks.get ⟨i, h⟩).sid0 0 0 (tasks.get ⟨i, h⟩).behavior.events).map stripT := by
  have hlen : ¬tasks.length = 0 := by omega
  have hab : ¬tasks.any (fun t => t.aborted) = true := by
    simp only [List.any_eq_true, not_exists]
    intro t hconj
    exact absurd hconj.2 (by simp [hnoab t hconj.1])
  unfold runParallel
  rw [if_neg hlen, if_neg hab]
  have hinit := stateAt_init t0 tasks i h
  have hmain := proj_live sched
    (totalWork (tasks.map fun t => some (initPState t t0)))
    (tasks.map fun t => some (initPState t t0)) 0 t0 i
    (initPState (tasks.get ⟨i, h⟩) t0) (le_refl _) hinit
  simpa [initPState] using hmain

/-- Claim C2: the merged stream of runParallel contains exactly one done
event per task; and the projection of each task out of the merged stream
is, up to timing, exactly the single-session driver output of the
behaviour of that task alone, whatever the other tasks do and however
the pulls interleave —
in particular a throwing task leaves the projection of every other task
unchanged, with its own events and its own single terminal done. -/
theorem claim_C2_one_done_per_task_and_isolation (tasks : List ParallelTask)
    (sched : Nat → Nat) (t0 : Int) :
    (∀ i, i < tasks.length →
      countDone (projTask i (runParallel tasks sched t0)) = 1) ∧
    ((∀ t ∈ tasks, t.aborted = false) →
      ∀ i (h : i < tasks.length),
        (projTask i (runParallel tasks sched t0)).map stripT =
          (runLoop (tasks.get ⟨i, h⟩).agent (tasks.get ⟨i, h⟩).behavior.ending
            (tasks.get ⟨i, h⟩).sid0 0 0
            (tasks.get ⟨i, h⟩).behavior.events).map stripT) := by
  constructor
  · intro i h
    have hlen : ¬tasks.length = 0 := by omega
    cases hab : tasks.any (fun t => t.aborted) with
    | true =>
      unfold runParallel
      rw [if_neg hlen, if_pos hab]
      have hp := projTask_preAbort t0 tasks 0 i
      rw [Nat.zero_add] at hp
      rw [hp, dif_pos h]
      simp [countDone, makeSynthDone]
    | false =>
      unfold runParallel
      rw [if_neg hlen, if_neg (by simp [hab])]
      have hinit := stateAt_init t0 tasks i h
      have hmain := proj_live sched
        (totalWork (tasks.map fun t => some (initPState t t0)))
        (tasks.map fun t => some (initPState t t0)) 0 t0 i
        (initPState (tasks.get ⟨i, h⟩) t0) (le_refl _) hinit
      rw [← countDone_map_stripT, hmain, countDone_map_stripT]
      obtain ⟨pre, d, heq, hd, hpre⟩ :=
        runLoop_shape (initPState (tasks.get ⟨i, h⟩) t0).agent
          (initPState (tasks.get ⟨i, h⟩) t0).ending 0 0
          (initPState (tasks.get ⟨i, h⟩) t0).remaining
          (initPState (tasks.get ⟨i, h⟩) t0).sessionId
      exact countDone_of_shape heq hd hpre
  · exact fun hnoab i h => runParallel_proj tasks sched t0 hnoab i h

/-- Concrete instantiation of both parts of C2: a healthy task and a
throwing task, with the healthy projection unchanged. -/
theorem claim_C2_witness :
    countDone (projTask 0 (runParallel [wtaskA, wtaskB] (fun k => k) 0)) = 1 ∧
    (projTask 0 (runParallel [wtaskA, wtaskB] (fun k => k) 0)).map stripT =
      (runLoop "codex" .exhaust "sa" 0 0 [sampleDone]).map stripT :=
  ⟨(claim_C2_one_done_per_task_and_isolation [wtaskA, wtaskB] (fun k => k) 0).1
      0 (by decide),
   (claim_C2_one_done_per_task_and_isolation [wtaskA, wtaskB] (fun k => k) 0).2
      (by decide) 0 (by decide)⟩

/-- Claim C5: with a pre-tripped cancellation token the adapters are never
consulted (the outputs below do not depend on any behaviour argument):
runAgent emits the single-event stream done interrupted with zeroed usage
and zero duration, and runParallel emits one done interrupted per task,
in task order. -/
theorem claim_C5_pre_tripped (agent sid : String) (t0 t1 : Int)
    (b : AdapterBehavior) (tasks : List ParallelTask) (sched : Nat → Nat)
    (tp : Int) :
    (runAgent agent true sid t0 t1 b =
      [{ type := "done", agent := agent, timestamp := t0, sessionId := sid,
         payload := .done .interrupted none zeroUsage 0 }]) ∧
    (tasks.any (fun t => t.aborted) = true →
      (runParallel tasks sched tp).length = tasks.length ∧
      ∀ i (h : i < tasks.length),
        (runParallel tasks sched tp).get? i =
          some (i, AgentEvent.mk "done" (tasks.get ⟨i, h⟩).agent tp
            (tasks.get ⟨i, h⟩).sid0 (.done .interrupted none zeroUsage 0))) := by
  constructor
  · simp [runAgent, makeSynthDone]
  · intro hab
    have hne : tasks ≠ [] := by
      intro hc
      rw [hc] at hab
      simp at hab
    have hlen : ¬tasks.length = 0 := by
      intro hc
      exact hne (List.length_eq_zero.mp hc)
    have hrp : runParallel tasks sched tp = preAbortDones tp 0 tasks := by
      unfold runParallel
      rw [if_neg hlen, if_pos hab]
    constructor
    · rw [hrp]
      exact preAbortDones_length tp tasks 0
    · intro i h
      rw [hrp, preAbortDones_get? tp tasks 0 i h]
      simp [makeSynthDone]

/-- Concrete instantiation of the parallel part of C5. -/
theorem claim_C5_pre_tripped_witness :
    (runParallel [wtaskC, wtaskA] (fun k => k) 7).length = 2 ∧
    (runParallel [wtaskC, wtaskA] (fun k => k) 7).get? 0 =
      some (0, AgentEvent.mk "done" "opencode" 7 "sc"
        (.done .interrupted none zeroUsage 0)) := by
  have happ := (claim_C5_pre_tripped "x" "s" 0 0 ⟨[], .exhaust⟩
    [wtaskC, wtaskA] (fun k => k) 7).2 (by decide)
  exact ⟨happ.1, happ.2 0 (by decide)⟩

/-- Session ids agree whenever the time-erased streams agree. -/
theorem map_sessionId_of_map_stripT {l1 l2 : List AgentEvent}
    (h : l1.map stripT = l2.map stripT) :
    l1.map AgentEvent.sessionId = l2.map AgentEvent.sessionId := by
  have h2 : (l1.map stripT).map AgentEvent.sessionId =
      (l2.map stripT).map AgentEvent.sessionId := by rw [h]
  simpa [List.map_map, Function.comp, stripT] using h2

/-- When the token trips after k events and none of them was a done, the
abort-time loop yields exactly those k events followed by one synthesized
done interrupted carrying the session id of the last delivered event (or
the provisional id when k = 0). -/
theorem runLoopAbortAt_no_done (agent : String) (ending : AdapterEnd)
    (t0 t1 ta : Int) :
    ∀ (k : Nat) (events : List AgentEvent) (sid : String),
      k ≤ events.length → (∀ e ∈ events.take k, e.type ≠ "done") →
      runLoopAbortAt agent ending sid t0 t1 ta k events =
        events.take k ++
          [makeSynthDone agent .interrupted (lastSid sid (events.take k)) t0 ta] := by
  intro k
  induction k with
  | zero =>
    intro events sid _ _
    simp [runLoopAbortAt, lastSid]
  | succ k ih =>
    intro events sid hlen hnd
    cases events with
    | nil => simp at hlen
    | cons e rest =>
      rw [List.take_succ_cons] at hnd ⊢
      have he : e.type ≠ "done" := hnd e (List.mem_cons_self _ _)
      have hrest : ∀ x ∈ rest.take k, x.type ≠ "done" :=
        fun x hx => hnd x (List.mem_cons_of_mem e hx)
      have hlen2 : k ≤ rest.length := by
        simp only [List.length_cons] at hlen
        omega
      simp only [runLoopAbortAt, if_neg he]
      rw [ih rest e.sessionId hlen2 hrest, lastSid_cons]
      simp

/-- A trip that would only be observed after the stream already ended is
never observed: the run equals the ordinary pull loop. -/
theorem runLoopAbortAt_conservative (agent : String) (ending : AdapterEnd)
    (t0 t1 ta : Int) :
    ∀ (events : List AgentEvent) (k : Nat) (sid : String),
      events.length < k →
      runLoopAbortAt agent ending sid t0 t1 ta k events =
        runLoop agent ending sid t0 t1 events := by
  intro events
  induction events with
  | nil =>
    intro k sid hk
    cases k with
    | zero => simp at hk
    | succ k => rfl
  | cons e rest ih =>
    intro k sid hk
    cases k with
    | zero => simp at hk
    | succ k =>
      by_cases he : e.type = "done"
      · simp [runLoopAbortAt, runLoop, he]
      · simp only [runLoopAbortAt, runLoop, if_neg he]
        rw [ih k e.sessionId (by simp only [List.length_cons] at hk; omega)]

/-- Every tag of the cancel path is at least the starting index. -/
theorem yieldInterruptedFrom_tags_ge (now : Int) :
    ∀ (states : List (Option PState)) (n : Nat),
      ∀ p ∈ yieldInterruptedFrom now n states, n ≤ p.1 := by
  intro states
  induction states with
  | nil => intro n p hp; simp [yieldInterruptedFrom] at hp
  | cons a rest ih =>
    intro n p hp
    cases a with
    | none =>
      have := ih (n + 1) p hp
      omega
    | some st =>
      rcases List.mem_cons.mp hp with h1 | h1
      · rw [h1]
      · have := ih (n + 1) p h1
        omega

/-- The cancel path gives a task with a live state exactly its one
interrupted terminal, carrying the current session id of its state. -/
theorem projTask_yieldInterrupted_live (now : Int) :
    ∀ (states : List (Option PState)) (n i : Nat) (st : PState),
      stateAt states i = some st →
      projTask (n + i) (yieldInterruptedFrom now n states) =
        [makeSynthDone st.agent .interrupted st.sessionId st.startTime now] := by
  intro states
  induction states with
  | nil => intro n i st h; cases i <;> simp [stateAt] at h
  | cons a rest ih =>
    intro n i st h
    cases i with
    | zero =>
      have ha : a = some st := h
      subst ha
      have hforeign : projTask (n + 0) (yieldInterruptedFrom now (n + 1) rest) = [] := by
        apply projTask_foreign
        intro p hp
        have := yieldInterruptedFrom_tags_ge now rest (n + 1) p hp
        omega
      simp [yieldInterruptedFrom, projTask, List.filterMap_cons] at hforeign ⊢
      exact hforeign
    | succ m =>
      cases a with
      | none =>
        have hm := ih (n + 1) m st h
        have harith : n + 1 + m = n + (m + 1) := by omega
        rw [harith] at hm
        simpa [yieldInterruptedFrom] using hm
      | some sta =>
        have hne : ¬(n = n + (m + 1)) := by omega
        have hstep : projTask (n + (m + 1))
            (yieldInterruptedFrom now n (some sta :: rest)) =
            projTask (n + (m + 1)) (yieldInterruptedFrom now (n + 1) rest) := by
          simp [yieldInterruptedFrom, projTask, List.filterMap_cons, hne]
        rw [hstep]
        have hm := ih (n + 1) m st h
        have harith : n + 1 + m = n + (m + 1) := by omega
        rw [harith] at hm
        exact hm

/-- The cancel path gives a task without a live state nothing. -/
theorem projTask_yieldInterrupted_dead (now : Int) :
    ∀ (states : List (Option PState)) (n i : Nat),
      stateAt states i = none →
      projTask (n + i) (yieldInterruptedFrom now n states) = [] := by
  intro states
  induction states with
  | nil => intro n i _; simp [yieldInterruptedFrom, projTask]
  | cons a rest ih =>
    intro n i h
    cases i with
    | zero =>
      have ha : a = none := h
      subst ha
      apply projTask_foreign
      intro p hp
      have := yieldInterruptedFrom_tags_ge now rest (n + 1) p hp
      omega
    | succ m =>
      cases a with
      | none =>
        have hm := ih (n + 1) m h
        have harith : n + 1 + m = n + (m + 1) := by omega
        rw [harith] at hm
        simpa [yieldInterruptedFrom] using hm
      | some sta =>
        have hne : ¬(n = n + (m + 1)) := by omega
        have hstep : projTask (n + (m + 1))
            (yieldInterruptedFrom now n (some sta :: rest)) =
            projTask (n + (m + 1)) (yieldInterruptedFrom now (n + 1) rest) := by
          simp [yieldInterruptedFrom, projTask, List.filterMap_cons, hne]
        rw [hstep]
        have hm := ih (n + 1) m h
        have harith : n + 1 + m = n + (m + 1) := by omega
        rw [harith] at hm
        exact hm

/-- A task with no live state contributes nothing to the aborting merge
loop either. -/
theorem projAbort_dead (sched : Nat → Nat) :
    ∀ (fuel a : Nat) (states : List (Option PState)) (k : Nat) (now : Int)
      (i : Nat),
      stateAt states i = none →
      projTask i (ploopAbort sched a fuel states k now) = [] := by
  intro fuel
  induction fuel with
  | zero =>
    intro a states k now i hdead
    cases a with
    | zero =>
      have hdd := projTask_yieldInterrupted_dead now states 0 i hdead
      simpa [ploopAbort] using hdd
    | succ a => rfl
  | succ fuel ih =>
    intro a states k now i hdead
    cases a with
    | zero =>
      have hdd := projTask_yieldInterrupted_dead now states 0 i hdead
      simpa [ploopAbort] using hdd
    | succ a =>
      cases hemp : (liveIdxs states).isEmpty with
      | true => simp [ploopAbort, hemp, projTask]
      | false =>
        have hemp2 : ¬(liveIdxs states).isEmpty = true := by simp [hemp]
        generalize hj : pickIdx sched k states = j
        have hjmem : j ∈ liveIdxs states := hj ▸ pickIdx_mem sched k states hemp2
        obtain ⟨hjlt, hjsome⟩ := mem_liveIdxs.mp hjmem
        cases hstj : stateAt states j with
        | none => rw [hstj] at hjsome; simp at hjsome
        | some stj =>
          have hji : j ≠ i := by
            intro hc
            rw [hc, hdead] at hstj
            exact absurd hstj (by simp)
          have hrw : ploopAbort sched (a + 1) (fuel + 1) states k now =
              (pstep j stj now).1 ++
                ploopAbort sched a fuel (states.set j (pstep j stj now).2)
                  (k + 1) (now + 1) := by
            simp only [ploopAbort, hemp, hj, hstj]
            simp
          rw [hrw, projTask_append]
          rw [projTask_foreign (fun p hp => by rw [pstep_tags j stj now p hp]; exact hji)]
          rw [ih a (states.set j (pstep j stj now).2) (k + 1) (now + 1) i
            (by rw [stateAt_set_ne states j i _ hji]; exact hdead)]
          rfl

/-- Lifecycle of a live task in the aborting merge loop: its projection
equals, up to timing, the single-session abort-time loop on its own state
for the number of pulls the schedule granted it before the cancel. -/
theorem projAbort_live (sched : Nat → Nat) :
    ∀ (fuel a : Nat) (states : List (Option PState)) (k : Nat) (now : Int)
      (i : Nat) (st : PState),
      totalWork states ≤ fuel → stateAt states i = some st →
      ∃ j, (projTask i (ploopAbort sched a fuel states k now)).map stripT =
        (runLoopAbortAt st.agent st.ending st.sessionId 0 0 0 j
          st.remaining).map stripT := by
  intro fuel
  induction fuel with
  | zero =>
    intro a states k now i st hfuel hst
    have h1 := workOf_le_totalWork states i st hst
    simp [workOf] at h1
    omega
  | succ fuel ih =>
    intro a states k now i st hfuel hst
    cases a with
    | zero =>
      refine ⟨0, ?_⟩
      have hbase := projTask_yieldInterrupted_live now states 0 i st hst
      have hbase2 : projTask i (ploopAbort sched 0 (fuel + 1) states k now) =
          [makeSynthDone st.agent .interrupted st.sessionId st.startTime now] := by
        simpa [ploopAbort] using hbase
      rw [hbase2]
      simp [runLoopAbortAt, stripT, makeSynthDone, stripPayload]
    | succ a =>
      have hilive : i ∈ liveIdxs states :=
        mem_liveIdxs.mpr ⟨stateAt_lt_length hst, by rw [hst]; rfl⟩
      have hemp : (liveIdxs states).isEmpty = false := by
        cases hl : liveIdxs states with
        | nil => rw [hl] at hilive; simp at hilive
        | cons x t => rfl
      have hemp2 : ¬(liveIdxs states).isEmpty = true := by simp [hemp]
      generalize hj : pickIdx sched k states = j
      have hjmem : j ∈ liveIdxs states := hj ▸ pickIdx_mem sched k states hemp2
      obtain ⟨hjlt, hjsome⟩ := mem_liveIdxs.mp hjmem
      by_cases hij : j = i
      · subst hij
        have hrw : ploopAbort sched (a + 1) (fuel + 1) states k now =
            (pstep j st now).1 ++
              ploopAbort sched a fuel (states.set j (pstep j st now).2)
                (k + 1) (now + 1) := by
          simp only [ploopAbort, hemp, hj, hst]
          simp
        rcases hrem : st.remaining with _ | ⟨e, rest⟩
        · refine ⟨1, ?_⟩
          rw [hrw, projTask_append, projTask_own (pstep_tags j st now)]
          have hnone : (pstep j st now).2 = none := by
            cases hend : st.ending <;> simp [pstep, hrem, hend]
          have hdead2 : stateAt (states.set j (pstep j st now).2) j = none := by
            rw [hnone]
            exact stateAt_set_self states j none hjlt
          rw [projAbort_dead sched fuel a _ _ _ j hdead2]
          rcases hend : st.ending with _ | m <;>
            simp [pstep, hrem, hend, runLoopAbortAt, runLoop, stripT,
              makeSynthError, makeSynthDone, stripPayload]
        · by_cases hdone : e.type = "done"
          · refine ⟨1, ?_⟩
            have hstep1 : (pstep j st now).1 = [(j, e)] := by
              simp [pstep, hrem, hdone]
            have hnone : (pstep j st now).2 = none := by
              simp [pstep, hrem, hdone]
            have hdead2 : stateAt (states.set j (pstep j st now).2) j = none := by
              rw [hnone]
              exact stateAt_set_self states j none hjlt
            rw [hrw, projTask_append, projTask_own (pstep_tags j st now),
              projAbort_dead sched fuel a _ _ _ j hdead2, hstep1]
            simp [runLoopAbortAt, hdone]
          · have hstep1 : (pstep j st now).1 = [(j, e)] := by
              simp [pstep, hrem, hdone]
            have hstep2 : (pstep j st now).2 =
                some { st with sessionId := e.sessionId, remaining := rest } := by
              simp [pstep, hrem, hdone]
            have hfuel2 : totalWork (states.set j (pstep j st now).2) ≤ fuel := by
              have := totalWork_set_lt states j st _ hst (workOf_pstep j st now)
              omega
            have hst2 : stateAt (states.set j (pstep j st now).2) j =
                some { st with sessionId := e.sessionId, remaining := rest } := by
              rw [hstep2]
              exact stateAt_set_self states j _ hjlt
            obtain ⟨j2, hih⟩ := ih a (states.set j (pstep j st now).2) (k + 1)
              (now + 1) j _ hfuel2 hst2
            refine ⟨j2 + 1, ?_⟩
            rw [hrw, projTask_append, projTask_own (pstep_tags j st now), hstep1]
            have hih2 : (projTask j (ploopAbort sched a fuel
                (states.set j (pstep j st now).2) (k + 1) (now + 1))).map stripT =
                (runLoopAbortAt st.agent st.ending e.sessionId 0 0 0 j2
                  rest).map stripT := by
              simpa using hih
            simp [runLoopAbortAt, hdone, hih2]
      · cases hstj : stateAt states j with
        | none => rw [hstj] at hjsome; simp at hjsome
        | some stj =>
          have hrw : ploopAbort sched (a + 1) (fuel + 1) states k now =
              (pstep j stj now).1 ++
                ploopAbort sched a fuel (states.set j (pstep j stj now).2)
                  (k + 1) (now + 1) := by
            simp only [ploopAbort, hemp, hj, hstj]
            simp
          have hpres : stateAt (states.set j (pstep j stj now).2) i = some st := by
            rw [stateAt_set_ne states j i _ hij]
            exact hst
          have hfuel2 : totalWork (states.set j (pstep j stj now).2) ≤ fuel := by
            have := totalWork_set_lt states j stj _ hstj (workOf_pstep j stj now)
            omega
          obtain ⟨j2, hih⟩ := ih a _ (k + 1) (now + 1) i st hfuel2 hpres
          refine ⟨j2, ?_⟩
          rw [hrw, projTask_append,
            projTask_foreign (fun p hp => by rw [pstep_tags j stj now p hp]; exact hij)]
          rw [List.nil_append]
          exact hih

/-- The projection of one task out of the cancelled merged stream equals,
up to timing, the single-session abort-time loop on that task alone for
some schedule-dependent number of delivered pulls. -/
theorem runParallelAbort_proj (tasks : List ParallelTask) (sched : Nat → Nat)
    (t0 : Int) (abortStep : Nat)
    (hnoab : ∀ t ∈ tasks, t.aborted = false) (i : Nat)
    (h : i < tasks.length) :
    ∃ j, (projTask i (runParallelAbortAt tasks sched t0 abortStep)).map stripT =
      (runLoopAbortAt (tasks.get ⟨i, h⟩).agent
        (tasks.get ⟨i, h⟩).behavior.ending (tasks.get ⟨i, h⟩).sid0 0 0 0 j
        (tasks.get ⟨i, h⟩).behavior.events).map stripT := by
  have hlen : ¬tasks.length = 0 := by omega
  have hab : ¬tasks.any (fun t => t.aborted) = true := by
    simp only [List.any_eq_true, not_exists]
    intro t hconj
    exact absurd hconj.2 (by simp [hnoab t hconj.1])
  unfold runParallelAbortAt
  rw [if_neg hlen, if_neg hab]
  have hinit := stateAt_init t0 tasks i h
  obtain ⟨j, hmain⟩ := projAbort_live sched
    (totalWork (tasks.map fun t => some (initPState t t0))) abortStep
    (tasks.map fun t => some (initPState t t0)) 0 t0 i
    (initPState (tasks.get ⟨i, h⟩) t0) (le_refl _) hinit
  exact ⟨j, by simpa [initPState] using hmain⟩

/-- Claim C6: every terminal or error event synthesized by the drivers
carries the session id of the last event the adapter yielded before the
synthesis, or the driver-generated provisional id when the adapter
yielded no event.  Covered cases: the MISSING_DONE and ADAPTER_ERROR
pairs of runAgent, the pre-abort done of runAgent (the adapter yielded
nothing, so it carries the provisional id), the synthesized pair of a
task inside runParallel, the done synthesized by runAgent when the token
trips after k non-done events (it carries the session id of the last
delivered event, or the provisional id when k = 0), and the interrupted
dones of the runParallel cancel path: each live task ends, after the
events it got to deliver, in one done carrying the session id its state
held at the cancel. -/
theorem claim_C6_synth_session_id (agent sid : String) (t0 t1 ta : Int)
    (events : List AgentEvent) (ending : AdapterEnd) (b : AdapterBehavior)
    (tasks : List ParallelTask) (sched : Nat → Nat) (tp : Int)
    (abortStep : Nat) :
    ((∀ e ∈ events, e.type ≠ "done") →
      ∃ e1 e2,
        runAgent agent false sid t0 t1 ⟨events, ending⟩ = events ++ [e1, e2] ∧
        e1.sessionId = lastSid sid events ∧
        e2.sessionId = lastSid sid events) ∧
    (∀ e ∈ runAgent agent true sid t0 t1 b, e.sessionId = sid) ∧
    ((∀ t ∈ tasks, t.aborted = false) →
      ∀ i (h : i < tasks.length),
        (∀ e ∈ (tasks.get ⟨i, h⟩).behavior.events, e.type ≠ "done") →
        ((projTask i (runParallel tasks sched tp)).drop
            (tasks.get ⟨i, h⟩).behavior.events.length).map AgentEvent.sessionId =
          [lastSid (tasks.get ⟨i, h⟩).sid0 (tasks.get ⟨i, h⟩).behavior.events,
           lastSid (tasks.get ⟨i, h⟩).sid0 (tasks.get ⟨i, h⟩).behavior.events]) ∧
    (∀ k : Nat, k ≤ events.length → (∀ e ∈ events.take k, e.type ≠ "done") →
      runAgentAbortDuring agent sid t0 t1 ta ⟨events, ending⟩ k =
        events.take k ++
          [makeSynthDone agent .interrupted (lastSid sid (events.take k))
            t0 ta]) ∧
    ((∀ t ∈ tasks, t.aborted = false) →
      ∀ i (h : i < tasks.length),
        ∃ j,
          ((projTask i (runParallelAbortAt tasks sched tp abortStep)).map
              stripT =
            (runLoopAbortAt (tasks.get ⟨i, h⟩).agent
              (tasks.get ⟨i, h⟩).behavior.ending (tasks.get ⟨i, h⟩).sid0 0 0 0
              j (tasks.get ⟨i, h⟩).behavior.events).map stripT) ∧
          (j ≤ (tasks.get ⟨i, h⟩).behavior.events.length →
            (∀ e ∈ (tasks.get ⟨i, h⟩).behavior.events.take j,
              e.type ≠ "done") →
            (projTask i (runParallelAbortAt tasks sched tp abortStep)).map
                AgentEvent.sessionId =
              ((tasks.get ⟨i, h⟩).behavior.events.take j).map
                  AgentEvent.sessionId ++
                [lastSid (tasks.get ⟨i, h⟩).sid0
                  ((tasks.get ⟨i, h⟩).behavior.events.take j)])) := by
  refine ⟨?_, ?_, ?_, ?_, ?_⟩
  · intro hnd
    cases ending with
    | exhaust =>
      refine ⟨makeSynthError agent "MISSING_DONE" missingDoneMessage
          (lastSid sid events) t1,
        makeSynthDone agent .error (lastSid sid events) t0 t1, ?_, rfl, rfl⟩
      show runLoop agent .exhaust sid t0 t1 events = _
      rw [runLoop_no_done agent .exhaust t0 t1 events sid hnd]
      rfl
    | throwErr m =>
      refine ⟨makeSynthError agent "ADAPTER_ERROR" m (lastSid sid events) t1,
        makeSynthDone agent .error (lastSid sid events) t0 t1, ?_, rfl, rfl⟩
      show runLoop agent (.throwErr m) sid t0 t1 events = _
      rw [runLoop_no_done agent (.throwErr m) t0 t1 events sid hnd]
      rfl
  · intro e he
    have heq : e = makeSynthDone agent .interrupted sid t0 t0 := by
      simpa [runAgent] using he
    rw [heq]
    rfl
  · intro hnoab i h hnd
    have hproj := runParallel_proj tasks sched tp hnoab i h
    have h1 : ((projTask i (runParallel tasks sched tp)).drop
          (tasks.get ⟨i, h⟩).behavior.events.length).map AgentEvent.sessionId =
        ((runLoop (tasks.get ⟨i, h⟩).agent (tasks.get ⟨i, h⟩).behavior.ending
            (tasks.get ⟨i, h⟩).sid0 0 0 (tasks.get ⟨i, h⟩).behavior.events).drop
          (tasks.get ⟨i, h⟩).behavior.events.length).map AgentEvent.sessionId := by
      apply map_sessionId_of_map_stripT
      rw [List.map_drop, List.map_drop, hproj]
    rw [h1, runLoop_no_done (tasks.get ⟨i, h⟩).agent
      (tasks.get ⟨i, h⟩).behavior.ending 0 0
      (tasks.get ⟨i, h⟩).behavior.events (tasks.get ⟨i, h⟩).sid0 hnd]
    rw [List.drop_left]
    cases (tasks.get ⟨i, h⟩).behavior.ending <;> rfl
  · intro k hk hnd
    exact runLoopAbortAt_no_done agent ending t0 t1 ta k events sid hk hnd
  · intro hnoab i h
    obtain ⟨j, hmain⟩ := runParallelAbort_proj tasks sched tp abortStep hnoab i h
    refine ⟨j, hmain, ?_⟩
    intro hjlen hnd
    have hsid := map_sessionId_of_map_stripT hmain
    rw [hsid, runLoopAbortAt_no_done (tasks.get ⟨i, h⟩).agent
      (tasks.get ⟨i, h⟩).behavior.ending 0 0 0 j
      (tasks.get ⟨i, h⟩).behavior.events (tasks.get ⟨i, h⟩).sid0 hjlen hnd]
    simp [makeSynthDone]

/-- Concrete instantiation of the hypothesised parts of C6: the
MISSING_DONE pair, the projection of a parallel task, the mid-run abort
of runAgent after one text event, and the cancel-path projection of a
parallel task. -/
theorem claim_C6_synth_session_id_witness :
    (∃ e1 e2,
      runAgent "gemini" false "s0" 0 1 ⟨[sampleText], .exhaust⟩ =
        [sampleText] ++ [e1, e2] ∧
      e1.sessionId = lastSid "s0" [sampleText] ∧
      e2.sessionId = lastSid "s0" [sampleText]) ∧
    ((projTask 1 (runParallel [wtaskA, wtaskB] (fun k => k) 0)).drop 0).map
        AgentEvent.sessionId = ["sb", "sb"] ∧
    (runAgentAbortDuring "gemini" "s0" 0 1 9 ⟨[sampleText], .exhaust⟩ 1 =
      [sampleText].take 1 ++
        [makeSynthDone "gemini" .interrupted
          (lastSid "s0" ([sampleText].take 1)) 0 9]) ∧
    (∃ j,
      ((projTask 1 (runParallelAbortAt [wtaskA, wtaskB] (fun k => k) 0 1)).map
          stripT =
        (runLoopAbortAt "gemini" (.throwErr "boom") "sb" 0 0 0 j
          ([] : List AgentEvent)).map stripT) ∧
      (j ≤ ([] : List AgentEvent).length →
        (∀ e ∈ ([] : List AgentEvent).take j, e.type ≠ "done") →
        (projTask 1 (runParallelAbortAt [wtaskA, wtaskB] (fun k => k)
            0 1)).map AgentEvent.sessionId =
          (([] : List AgentEvent).take j).map AgentEvent.sessionId ++
            [lastSid "sb" (([] : List AgentEvent).take j)])) := by
  have h1 := (claim_C6_synth_session_id "gemini" "s0" 0 1 9 [sampleText]
    .exhaust ⟨[], .exhaust⟩ [wtaskA, wtaskB] (fun k => k) 0 1).1 (by decide)
  have h3 := (claim_C6_synth_session_id "gemini" "s0" 0 1 9 [sampleText]
    .exhaust ⟨[], .exhaust⟩ [wtaskA, wtaskB] (fun k => k) 0 1).2.2.1
    (by decide) 1 (by decide) (by decide)
  have h4 := (claim_C6_synth_session_id "gemini" "s0" 0 1 9 [sampleText]
    .exhaust ⟨[], .exhaust⟩ [wtaskA, wtaskB] (fun k => k) 0 1).2.2.2.1 1
    (by decide) (by decide)
  have h5 := (claim_C6_synth_session_id "gemini" "s0" 0 1 9 [sampleText]
    .exhaust ⟨[], .exhaust⟩ [wtaskA, wtaskB] (fun k => k) 0 1).2.2.2.2
    (by decide) 1 (by decide)
  exact ⟨h1, h3, h4, h5⟩

/-- Claim C7, counterexample: for the policy with fileWrite allow,
shellExecute allow, networkAccess deny, a capability is deny and yet the
sandbox mode is danger-full-access, not the read-only the claim
requires: the code only lets fileWrite and shellExecute force
read-only. -/
theorem claim_C7_codex_mapping_cex :
    (Codex.normalizePermissions (some (PermissionPolicy.mk (some .allow)
      (some .allow) (some .deny)))).networkAccess = .deny ∧
    (Codex.mapPermissionsToCodexOptions (some (PermissionPolicy.mk (some .allow)
      (some .allow) (some .deny)))).sandboxMode = .dangerFullAccess ∧
    CodexSandboxMode.dangerFullAccess ≠ .readOnly := by
  refine ⟨rfl, rfl, ?_⟩
  decide

/-- Claim C7 as amended: with absent capabilities defaulting to ask,
mapPermissionsToCodexOptions returns sandboxMode read-only exactly when
fileWrite or shellExecute is deny (networkAccess does not participate),
danger-full-access exactly when fileWrite and shellExecute are both
allow, and workspace-write otherwise; approvalPolicy is never exactly
when all three capabilities are allow, untrusted exactly when not all
allow and some capability is ask, and on-request otherwise; and
networkAccessEnabled is true if and only if networkAccess is allow. -/
theorem claim_C7_codex_mapping_amended :
    (∀ fw se net : PermissionLevel,
      ((Codex.mapPermissionsToCodexOptions (some (PermissionPolicy.mk (some fw)
          (some se) (some net)))).sandboxMode = .readOnly ↔
        fw = .deny ∨ se = .deny) ∧
      ((Codex.mapPermissionsToCodexOptions (some (PermissionPolicy.mk (some fw)
          (some se) (some net)))).sandboxMode = .dangerFullAccess ↔
        fw = .allow ∧ se = .allow) ∧
      ((Codex.mapPermissionsToCodexOptions (some (PermissionPolicy.mk (some fw)
          (some se) (some net)))).sandboxMode = .workspaceWrite ↔
        ¬(fw = .deny ∨ se = .deny) ∧ ¬(fw = .allow ∧ se = .allow)) ∧
      ((Codex.mapPermissionsToCodexOptions (some (PermissionPolicy.mk (some fw)
          (some se) (some net)))).approvalPolicy = .never ↔
        fw = .allow ∧ se = .allow ∧ net = .allow) ∧
      ((Codex.mapPermissionsToCodexOptions (some (PermissionPolicy.mk (some fw)
          (some se) (some net)))).approvalPolicy = .untrusted ↔
        ¬(fw = .allow ∧ se = .allow ∧ net = .allow) ∧
          (fw = .ask ∨ se = .ask ∨ net = .ask)) ∧
      ((Codex.mapPermissionsToCodexOptions (some (PermissionPolicy.mk (some fw)
          (some se) (some net)))).approvalPolicy = .onRequest ↔
        ¬(fw = .allow ∧ se = .allow ∧ net = .allow) ∧
          ¬(fw = .ask ∨ se = .ask ∨ net = .ask)) ∧
      ((Codex.mapPermissionsToCodexOptions (some (PermissionPolicy.mk (some fw)
          (some se) (some net)))).networkAccessEnabled = true ↔
        net = .allow)) ∧
    (∀ policy : Option PermissionPolicy,
      Codex.mapPermissionsToCodexOptions policy =
        Codex.mapPermissionsToCodexOptions (some (PermissionPolicy.mk
          (some (Codex.normalizePermissions policy).fileWrite)
          (some (Codex.normalizePermissions policy).shellExecute)
          (some (Codex.normalizePermissions policy).networkAccess)))) := by
  constructor
  · decide
  · intro policy
    rcases policy with _ | ⟨a, b, c⟩ <;> rfl

/-- Dropping a satisfying prefix never lengthens a list. -/
theorem length_dropWhile_le (p : Char → Bool) :
    ∀ l : List Char, (l.dropWhile p).length ≤ l.length := by
  intro l
  induction l with
  | nil => simp
  | cons c cs ih =>
    by_cases h : p c
    · simp only [List.dropWhile_cons, h, if_true, List.length_cons]
      omega
    · simp [List.dropWhile_cons, h]

/-- A newline-free sequence splits into no complete line and itself as
residual. -/
theorem splitNl_no_nl : ∀ s : List Char, '\n' ∉ s → splitNl s = ([], s) := by
  intro s
  induction s with
  | nil => intro _; rfl
  | cons c cs ih =>
    intro h
    have hc : ¬c = '\n' := fun hc => h (hc ▸ List.mem_cons_self c cs)
    have hcs : '\n' ∉ cs := fun hm => h (List.mem_cons_of_mem c hm)
    simp only [splitNl, if_neg hc, ih hcs]

/-- The residual of a split never contains a newline. -/
theorem splitNl_snd_no_nl : ∀ s : List Char, '\n' ∉ (splitNl s).2 := by
  intro s
  induction s with
  | nil => simp [splitNl]
  | cons c cs ih =>
    by_cases hc : c = '\n'
    · simp only [splitNl, if_pos hc]
      exact ih
    · simp only [splitNl, if_neg hc]
      cases hsp : splitNl cs with
      | mk ls rem =>
        cases ls with
        | nil =>
          simp only []
          intro hm
          rcases List.mem_cons.mp hm with h1 | h1
          · exact hc h1.symm
          · rw [hsp] at ih
            exact ih h1
        | cons l ls' =>
          simp only []
          rw [hsp] at ih
          exact ih

/-- A sequence containing a newline splits into its first line (the
characters before the first newline) and the split of what follows. -/
theorem splitNl_head :
    ∀ s : List Char, '\n' ∈ s →
      splitNl s =
        ((s.takeWhile (fun c => c != '\n')) ::
            (splitNl ((s.dropWhile (fun c => c != '\n')).tail)).1,
          (splitNl ((s.dropWhile (fun c => c != '\n')).tail)).2) := by
  intro s
  induction s with
  | nil => intro h; simp at h
  | cons c cs ih =>
    intro h
    by_cases hc : c = '\n'
    · subst hc
      simp [splitNl, List.takeWhile_cons, List.dropWhile_cons]
    · have hcs : '\n' ∈ cs := by
        rcases List.mem_cons.mp h with h1 | h1
        · exact absurd h1.symm hc
        · exact h1
      have hb : (c != '\n') = true := by simp [hc]
      simp only [splitNl, if_neg hc, List.takeWhile_cons, List.dropWhile_cons, hb,
        if_true, ih hcs]

/-- One-step unfolding of the while loop when a newline is present. -/
theorem drainBuffer_eq_of_mem (s : List Char) (h : '\n' ∈ s) :
    drainBuffer s =
      ((s.takeWhile (fun c => c != '\n')) ::
          (drainBuffer ((s.dropWhile (fun c => c != '\n')).tail)).1,
        (drainBuffer ((s.dropWhile (fun c => c != '\n')).tail)).2) := by
  rw [drainBuffer, dif_pos h]

/-- One-step unfolding of the while loop when no newline is present. -/
theorem drainBuffer_eq_of_not_mem (s : List Char) (h : '\n' ∉ s) :
    drainBuffer s = ([], s) := by
  rw [drainBuffer, dif_neg h]

/-- One-step unfolding of the reference split at a newline. -/
theorem splitNl_cons_nl (cs : List Char) :
    splitNl ('\n' :: cs) = ([] :: (splitNl cs).1, (splitNl cs).2) := by
  simp [splitNl]

/-- One-step unfolding of the reference split at a non-newline. -/
theorem splitNl_cons_other (c : Char) (cs : List Char) (hc : ¬c = '\n') :
    splitNl (c :: cs) =
      (match splitNl cs with
       | (l :: ls, rem) => ((c :: l) :: ls, rem)
       | ([], rem) => ([], c :: rem)) := by
  simp [splitNl, hc]

/-- The while loop computes exactly the reference split. -/
theorem drainBuffer_eq_splitNl (s : List Char) : drainBuffer s = splitNl s := by
  by_cases h : '\n' ∈ s
  · have hrec : drainBuffer ((s.dropWhile (fun c => c != '\n')).tail) =
        splitNl ((s.dropWhile (fun c => c != '\n')).tail) :=
      drainBuffer_eq_splitNl ((s.dropWhile (fun c => c != '\n')).tail)
    rw [drainBuffer_eq_of_mem s h, splitNl_head s h, hrec]
  · rw [drainBuffer_eq_of_not_mem s h, splitNl_no_nl s h]
termination_by s.length
decreasing_by
  have h0 : s ≠ [] := List.ne_nil_of_mem h
  have h1 : (s.dropWhile (fun c => c != '\n')).length ≤ s.length :=
    length_dropWhile_le _ s
  have h2 : 0 < s.length := List.length_pos.mpr h0
  simp only [List.length_tail]
  omega

/-- Splitting a concatenation: the lines of the left part, then the
split of its residual glued to the right part. -/
theorem splitNl_append :
    ∀ a b : List Char,
      splitNl (a ++ b) =
        ((splitNl a).1 ++ (splitNl ((splitNl a).2 ++ b)).1,
          (splitNl ((splitNl a).2 ++ b)).2) := by
  intro a
  induction a with
  | nil => intro b; simp [splitNl]
  | cons c cs ih =>
    intro b
    by_cases hc : c = '\n'
    · subst hc
      rw [List.cons_append, splitNl_cons_nl (cs ++ b), splitNl_cons_nl cs, ih b]
      simp
    · rw [List.cons_append, splitNl_cons_other c (cs ++ b) hc,
        splitNl_cons_other c cs hc, ih b]
      cases hsp : splitNl cs with
      | mk ls rem =>
        cases ls with
        | nil =>
          cases hsp2 : splitNl (rem ++ b) with
          | mk ls2 rem2 =>
            cases ls2 with
            | nil =>
              simp [hsp, hsp2, splitNl_cons_other c (rem ++ b) hc]
            | cons l2 t2 =>
              simp [hsp, hsp2, splitNl_cons_other c (rem ++ b) hc]
        | cons l ls' =>
          simp [hsp]

/-- The chunk loop with a newline-free carry buffer produces exactly the
parse results of the newline-delimited lines of the remaining input. -/
theorem parseNDJSONAux_eq {α : Type} (parse : List Char → Except String α) :
    ∀ (chunks : List (List Char)) (buffer : List Char), '\n' ∉ buffer →
      parseNDJSONAux parse buffer chunks =
        (linesSpec (buffer ++ chunks.flatten)).filterMap (parseLine parse) := by
  intro chunks
  induction chunks with
  | nil =>
    intro buffer hb
    by_cases hbe : buffer = []
    · subst hbe
      simp [parseNDJSONAux, linesSpec, splitNl]
    · have hlen : buffer.length > 0 := List.length_pos.mpr hbe
      simp only [parseNDJSONAux, if_pos hlen, List.flatten_nil, List.append_nil,
        linesSpec, splitNl_no_nl buffer hb, if_neg hbe]
      cases hp : parseLine parse buffer <;> simp [hp]
  | cons chunk rest ih =>
    intro buffer hb
    have hsnd : '\n' ∉ (splitNl (buffer ++ chunk)).2 := splitNl_snd_no_nl _
    have hjoin : buffer ++ (chunk :: rest).flatten = (buffer ++ chunk) ++ rest.flatten := by
      simp [List.append_assoc]
    simp only [parseNDJSONAux, drainBuffer_eq_splitNl (buffer ++ chunk),
      ih _ hsnd, hjoin]
    simp only [linesSpec, splitNl_append (buffer ++ chunk) rest.flatten]
    simp [List.filterMap_append, List.append_assoc]

/-- The framer output depends only on the concatenated input. -/
theorem parseNDJSON_eq_linesSpec {α : Type} (parse : List Char → Except String α)
    (chunks : List (List Char)) :
    parseNDJSON parse chunks =
      (linesSpec chunks.flatten).filterMap (parseLine parse) := by
  have h := parseNDJSONAux_eq parse chunks [] (by simp)
  simpa [parseNDJSON] using h

/-- Claim C8: the framer is total (in the model it is a function into
result lists: malformed JSON never raises), it skips empty and
whitespace-only lines, strips one trailing carriage return before
parsing, yields an ok result when the parser succeeds and a fail result
carrying the message and the raw line when it fails, continues past
failures, and parses a non-empty residual without trailing newline as a
final line: the whole output is exactly the line-by-line parse of the
newline-split concatenated input. -/
theorem claim_C8_ndjson_framer {α : Type} (parse : List Char → Except String α)
    (chunks : List (List Char)) :
    (parseNDJSON parse chunks =
      (linesSpec chunks.flatten).filterMap (parseLine parse)) ∧
    (∀ raw : List Char, (stripCR raw).all Char.isWhitespace = true →
      parseLine parse raw = none) ∧
    (∀ (raw : List Char) (v : α),
      ¬(stripCR raw).all Char.isWhitespace = true →
      parse (stripCR raw) = .ok v →
      parseLine parse raw = some (.ok v)) ∧
    (∀ (raw : List Char) (e : String),
      ¬(stripCR raw).all Char.isWhitespace = true →
      parse (stripCR raw) = .error e →
      parseLine parse raw = some (.fail e (stripCR raw))) := by
  refine ⟨parseNDJSON_eq_linesSpec parse chunks, ?_, ?_, ?_⟩
  · intro raw hws
    simp [parseLine, hws]
  · intro raw v hws hp
    simp [parseLine, hws, hp]
  · intro raw e hws hp
    simp [parseLine, hws, hp]

/-- Concrete instantiation of the parseLine conjuncts of C8. -/
theorem claim_C8_ndjson_framer_witness :
    parseLine parseX ['1', '\r'] = some (.ok 1) ∧
    parseLine parseX [' ', '\t'] = none ∧
    parseLine parseX ['x'] = some (.fail "bad" ['x']) :=
  ⟨(claim_C8_ndjson_framer parseX []).2.2.1 ['1', '\r'] 1 (by decide) rfl,
   (claim_C8_ndjson_framer parseX []).2.1 [' ', '\t'] (by decide),
   (claim_C8_ndjson_framer parseX []).2.2.2 ['x'] "bad" (by decide) rfl⟩

/-- Claim C10: the framer result depends only on the concatenation of the
chunks: any two chunkings of the same character sequence (splits in the
middle of a line included) yield identical results. -/
theorem claim_C10_chunking_invariance {α : Type}
    (parse : List Char → Except String α)
    (chunks1 chunks2 : List (List Char))
    (h : chunks1.flatten = chunks2.flatten) :
    parseNDJSON parse chunks1 = parseNDJSON parse chunks2 := by
  rw [parseNDJSON_eq_linesSpec, parseNDJSON_eq_linesSpec, h]

/-- Concrete instantiation of C10: one chunk against a split in the
middle of a line. -/
theorem claim_C10_chunking_invariance_witness :
    parseNDJSON parseX [['1', '\n', 'x']] =
      parseNDJSON parseX [['1'], ['\n', 'x'], []] :=
  claim_C10_chunking_invariance parseX [['1', '\n', 'x']] [['1'], ['\n', 'x'], []]
    (by decide)

/-- countInit distributes over append. -/
theorem countInit_append (a b : List AgentEvent) :
    countInit (a ++ b) = countInit a + countInit b := by
  simp [countInit, List.filter_append]

/-- Init discipline composes over consecutive segments. -/
theorem goodSeg_trans {b b1 b2 : Bool} {o1 o2 : List AgentEvent}
    (h1 : GoodSeg b o1 b1) (h2 : GoodSeg b1 o2 b2) :
    GoodSeg b (o1 ++ o2) b2 := by
  cases b with
  | true =>
    obtain ⟨hc1, hb1⟩ := h1
    subst hb1
    obtain ⟨hc2, hb2⟩ := h2
    exact ⟨by rw [countInit_append, hc1, hc2], hb2⟩
  | false =>
    rcases h1 with ⟨ho1, hb1⟩ | ⟨⟨e, t, ho1, ht, hc1⟩, hb1⟩
    · subst ho1
      subst hb1
      simpa using h2
    · subst hb1
      obtain ⟨hc2, hb2⟩ := h2
      refine Or.inr ⟨⟨e, t ++ o2, by rw [ho1]; rfl, ht, ?_⟩, hb2⟩
      rw [countInit_append, hc1, hc2]

namespace Gemini

/-- Message translation never produces an init event. -/
theorem translateMessage_countInit (ctx : GCtx) (ty : String)
    (msg : List (String × Json)) (sid : String) :
    countInit (translateMessage ctx ty msg sid).1 = 0 := by
  by_cases h1 : ty = "message"
  · simp only [translateMessage, if_pos h1]
    cases hc : (asString (lookupField msg "content")) <|>
        (asString (lookupField msg "text")) <|>
        (asString (lookupField msg "message")) with
    | none => simp [countInit]
    | some content => simp [countInit, createEvent]
  · by_cases h2 : ty = "tool_use"
    · simp [translateMessage, h1, h2, countInit, createEvent]
    · by_cases h3 : ty = "tool_result"
      · simp [translateMessage, h1, h2, h3, countInit, createEvent]
      · by_cases h4 : ty = "error"
        · simp [translateMessage, h1, h2, h3, h4, countInit, createEvent]
        · by_cases h5 : ty = "result"
          · simp [translateMessage, h1, h2, h3, h4, h5, countInit, createEvent]
          · simp [translateMessage, h1, h2, h3, h4, h5, countInit]

end Gemini

/-- countInit of an empty stream. -/
theorem countInit_nil : countInit [] = 0 := rfl

/-- countInit of a cons. -/
theorem countInit_cons (e : AgentEvent) (t : List AgentEvent) :
    countInit (e :: t) = (if e.type = "init" then 1 else 0) + countInit t := by
  by_cases h : e.type = "init" <;>
    simp [countInit, List.filter_cons, h, Nat.add_comm]

/-- countInit of a singleton. -/
theorem countInit_singleton (e : AgentEvent) :
    countInit [e] = if e.type = "init" then 1 else 0 := by
  rw [countInit_cons, countInit_nil, Nat.add_zero]

namespace Gemini

/-- One framer result respects the init discipline. -/
theorem geminiStep_good (ctx : GCtx) (st : GState) (r : NDJSONParseResult Json) :
    GoodSeg st.initYielded (geminiStep ctx st r).1
      ((geminiStep ctx st r).2).initYielded := by
  cases r with
  | fail err raw =>
    cases hinit : st.initYielded with
    | true =>
      cases hdone : st.doneYielded <;>
        simp [geminiStep, ensureInit, hinit, hdone, GoodSeg, countInit_nil,
          countInit_singleton, createEvent]
    | false =>
      cases hdone : st.doneYielded <;>
        simp [geminiStep, ensureInit, hinit, hdone, GoodSeg, countInit_nil,
          countInit_cons, countInit_singleton, createEvent]
      all_goals
        exact ⟨_, _, ⟨rfl, rfl⟩, rfl, by
          simp [countInit_nil, countInit_singleton]⟩
  | ok data =>
    cases hty : asString (lookupField (asRecord (some data)) "type") with
    | none =>
      cases hinit : st.initYielded <;>
        simp [geminiStep, hty, hinit, GoodSeg, countInit_nil]
    | some ty =>
      by_cases hi : ty = "init"
      · cases hinit : st.initYielded <;>
          simp [geminiStep, hty, hi, ensureInit, hinit, GoodSeg, countInit_nil,
            countInit_singleton, createEvent]
        all_goals exact ⟨_, _, ⟨rfl, rfl⟩, rfl, countInit_nil⟩
      · cases hinit : st.initYielded with
        | true =>
          cases hdone : st.doneYielded <;>
            simp [geminiStep, hty, hi, ensureInit, hinit, hdone, GoodSeg,
              countInit_nil, countInit_append, translateMessage_countInit]
        | false =>
          cases hdone : st.doneYielded <;>
            simp [geminiStep, hty, hi, ensureInit, hinit, hdone, GoodSeg,
              countInit_nil, countInit_cons, countInit_append,
              translateMessage_countInit, createEvent]
          all_goals
            exact ⟨_, _, ⟨rfl, rfl⟩, rfl, by
              simp [countInit_nil, translateMessage_countInit]⟩

end Gemini

namespace Gemini

/-- The whole framer loop respects the init discipline. -/
theorem geminiLoop_good (ctx : GCtx) :
    ∀ (rs : List (NDJSONParseResult Json)) (st : GState),
      GoodSeg st.initYielded (geminiLoop ctx st rs).1
        ((geminiLoop ctx st rs).2).initYielded := by
  intro rs
  induction rs with
  | nil =>
    intro st
    cases hinit : st.initYielded <;>
      simp [geminiLoop, GoodSeg, hinit, countInit_nil]
  | cons r rest ih =>
    intro st
    have h1 := geminiStep_good ctx st r
    have h2 := ih (geminiStep ctx st r).2
    have h3 := goodSeg_trans h1 h2
    simpa [geminiLoop] using h3

/-- The tail of the run after the loop respects the init discipline and
always leaves the init yielded. -/
theorem geminiFinish_good (ctx : GCtx) (aborted : Bool) (stderrText : String)
    (ending : GeminiEnding) (st : GState) :
    GoodSeg st.initYielded (geminiFinish ctx aborted stderrText ending st)
      true := by
  cases ending with
  | closed close =>
    cases hinit : st.initYielded with
    | true =>
      cases hdone : st.doneYielded <;>
        simp [geminiFinish, ensureInit, hinit, hdone, GoodSeg, countInit_nil,
          countInit_singleton, createEvent]
    | false =>
      cases hdone : st.doneYielded <;>
        simp [geminiFinish, ensureInit, hinit, hdone, GoodSeg, countInit_nil,
          countInit_cons, countInit_singleton, createEvent]
      all_goals
        exact ⟨_, _, ⟨rfl, rfl⟩, rfl, by
          simp [countInit_nil, countInit_singleton]⟩
  | exn m =>
    cases hinit : st.initYielded with
    | true =>
      cases hdone : st.doneYielded <;> cases hab : aborted <;>
        simp [geminiFinish, ensureInit, hinit, hdone, hab, GoodSeg,
          countInit_nil, countInit_cons, countInit_singleton, createEvent]
    | false =>
      cases hdone : st.doneYielded <;> cases hab : aborted <;>
        simp [geminiFinish, ensureInit, hinit, hdone, hab, GoodSeg,
          countInit_nil, countInit_cons, countInit_singleton, createEvent]
      all_goals
        exact ⟨_, _, ⟨rfl, rfl⟩, rfl, by
          simp [countInit_nil, countInit_cons, countInit_singleton, createEvent]⟩

end Gemini

/-- Claim C9: on every execution path of GeminiAdapter.run that the model
covers (normal NDJSON consumption, parse-failure lines, process exit
with or without output, an exception while spawning or reading, and
cancellation), the produced stream is non-empty, its first event is the
single init event, and no other init is ever yielded — so the init
precedes every other event of the stream. -/
theorem claim_C9_gemini_init_first (prompt : String)
    (options : Option AgentOptions) (procCwd sid0 freshId : String)
    (jparse : List Char → Except String Json) (startTime now : Int)
    (exec : Gemini.GeminiExec) :
    ∃ e t,
      Gemini.geminiRun prompt options procCwd sid0 freshId jparse startTime
        now exec = e :: t ∧
      e.type = "init" ∧
      countInit (Gemini.geminiRun prompt options procCwd sid0 freshId jparse
        startTime now exec) = 1 := by
  have hloop := Gemini.geminiLoop_good
    { options := options,
      toolConfig := (Gemini.mapAgentOptionsToGeminiCommand prompt options).2,
      procCwd := procCwd, jparse := jparse, freshId := freshId,
      startTime := startTime, now := now }
    (parseNDJSON (fun l => jparse l) exec.stdout)
    { sessionId := (options.bind AgentOptions.resume).getD sid0,
      initYielded := false, doneYielded := false }
  have hfin := Gemini.geminiFinish_good
    { options := options,
      toolConfig := (Gemini.mapAgentOptionsToGeminiCommand prompt options).2,
      procCwd := procCwd, jparse := jparse, freshId := freshId,
      startTime := startTime, now := now }
    exec.aborted exec.stderrText exec.ending
    (Gemini.geminiLoop
      { options := options,
        toolConfig := (Gemini.mapAgentOptionsToGeminiCommand prompt options).2,
        procCwd := procCwd, jparse := jparse, freshId := freshId,
        startTime := startTime, now := now }
      { sessionId := (options.bind AgentOptions.resume).getD sid0,
        initYielded := false, doneYielded := false }
      (parseNDJSON (fun l => jparse l) exec.stdout)).2
  have hcomp : GoodSeg false
      (Gemini.geminiRun prompt options procCwd sid0 freshId jparse startTime
        now exec) true := goodSeg_trans hloop hfin
  rcases hcomp with ⟨_, hb⟩ | ⟨⟨e, t, heq, htype, hcount⟩, _⟩
  · exact absurd hb (by simp)
  · refine ⟨e, t, heq, htype, ?_⟩
    rw [heq, countInit_cons, if_pos htype, hcount]
